import Mathlib

/-! TxnSim: resampling of a simulated daily price path.

A shallow embedding of `SourceCode/DailyTransaction.h` and `SourceCode/Main.cpp`.

* `double` prices are exact rationals (`ℚ`).
* `std::vector<T>` is `List T`; `push_back` appends at the end.
* C++ exceptions and undefined behaviour are explicit results (`Failure`).
* The random engine `std::mt19937_64` and `std::uniform_int_distribution` belong to the
  standard library; they are a parameter (`RandomLib`) of every sampling definition.
* `EquityPriceGenerator` is not part of the two source files; it is a function parameter.
-/

namespace TxnSim

/-! ## Results of fallible code -/

/-- The ways in which the program can fail to produce a value. -/
inductive Failure where
  /-- The exception `std::out_of_range`, thrown by `std::vector::at`. -/
  | out_of_range
  /-- The exception `std::length_error`, thrown by `std::vector<int>(n)` for a negative `n`. -/
  | length_error
  /-- Undefined behaviour: a read outside of a sequence, or a call of the standard
  library outside of its precondition. -/
  | undefined_behaviour
deriving DecidableEq, Repr

/-- Either a failure or a value. -/
abbrev Outcome (α : Type) : Type := Except Failure α

/-! ## DailyTransaction.h -/

/-- The class `DailyTransaction`: two private members set by the constructor. -/
structure DailyTransaction where
  startPrice_ : ℚ
  endPrice_ : ℚ
deriving DecidableEq, Repr

/-- The division `x / y` of exact numbers: the quotient, which exists when `y` is not
zero. Prices are exact numbers here, so the rounding and the overflow of a `double`
division are not part of the model. -/
def quotient (x y : ℚ) : Option ℚ :=
  if y = 0 then none else some (x / y)

/-- The call operator `DailyTransaction::operator()`:
`return (endPrice_ - startPrice_) / startPrice_;`, in exact arithmetic. -/
def DailyTransaction.operatorCall (t : DailyTransaction) : Option ℚ :=
  quotient (t.endPrice_ - t.startPrice_) t.startPrice_

/-! ## The standard library's random facilities -/

/-- The random facilities that `Main.cpp` takes from `<random>`:
* `Engine` is the state of a `std::mt19937_64`;
* `mt19937_64 seed` is the constructor `std::mt19937_64(seed)`;
* `uniform a b g` is one call `ud(g)` of a `std::uniform_int_distribution` built with
  bounds `a` and `b`: the drawn integer and the advanced engine. -/
structure RandomLib where
  Engine : Type
  mt19937_64 : Int → Engine
  uniform : Int → Int → Engine → Int × Engine

/-- The documented contract of `std::uniform_int_distribution`: on a non-empty closed
range every draw lies in the range. -/
def RandomLib.InRange (L : RandomLib) : Prop :=
  ∀ (a b : Int) (g : L.Engine), a ≤ b → a ≤ (L.uniform a b g).1 ∧ (L.uniform a b g).1 ≤ b

/-- A small concrete instance of the library (a linear congruential engine with a
modulo reduction), used to evaluate the definitions on concrete inputs. -/
def lcg : RandomLib where
  Engine := Nat
  mt19937_64 := fun seed => (seed % 64).toNat
  uniform := fun a b g => (a + (g : Int) % (b - a + 1), (g * 5 + 3) % 64)

/-! ## Main.cpp: generateSimulatedPath -/

/-- The loop of `generateSimulatedPath` (lines 37-44). The iterator `iter` is the
suffix of `prices` that starts at its position, so `prices.end()` is the empty suffix
and `prices.end() - 1` is the suffix of length one.

* `iter != prices.end() - 1` fails exactly on a suffix of length one: the loop ends
  and `txns` is returned.
* Otherwise the body reads `*iter`, then `*(++iter)`, steps back with `--iter`,
  pushes the transaction, and the loop header advances `iter` by one.
* On the empty suffix (`iter == prices.end()`, which only an empty `prices` reaches)
  the test still succeeds and `*iter` reads past the end of the vector. -/
def generateSimulatedPath.loop :
    List ℚ → List DailyTransaction → Outcome (List DailyTransaction)
  | [], _ => .error .undefined_behaviour
  | [_], txns => .ok txns
  | startPrice :: endPrice :: rest, txns =>
      generateSimulatedPath.loop (endPrice :: rest)
        (txns ++ [DailyTransaction.mk startPrice endPrice])

/-- The part of `generateSimulatedPath` after the prices are known:
`TxnVector txns;`, the loop, `return txns;`. -/
def extractTransactions (prices : List ℚ) : Outcome (List DailyTransaction) :=
  generateSimulatedPath.loop prices []

/-- The function `generateSimulatedPath`. The price generator `epg` stands for
`EquityPriceGenerator epg(mktPrice, days, 1.0, drift, volatility); epg(seed)`. -/
def generateSimulatedPath (epg : ℚ → Int → ℚ → ℚ → ℚ → Int → List ℚ)
    (days : Int) (mktPrice drift volatility : ℚ) (seed : Int) :
    Outcome (List DailyTransaction) :=
  extractTransactions (epg mktPrice days 1 drift volatility seed)

/-- A closed form of what the extraction loop appends, used in the proofs: one
transaction for each price that has a successor, from that price to the successor. -/
def adjacentPairs : List ℚ → List DailyTransaction
  | [] => []
  | [_] => []
  | startPrice :: endPrice :: rest =>
      DailyTransaction.mk startPrice endPrice :: adjacentPairs (endPrice :: rest)

/-! ## The standard library's `std::shuffle` and `std::vector::at` -/

/-- The element of `a` at the signed position `j`, when there is one. -/
def elemAt {α : Type} (a : List α) (j : Int) : Option α :=
  if 0 ≤ j then a[j.toNat]? else none

/-- The checked lookup `v.at(i)`: the element at position `i`, or the exception
`std::out_of_range` (a negative `int` converts to a `size_t` beyond every size). -/
def vectorAt {α : Type} (v : List α) (i : Int) : Outcome α :=
  match elemAt v i with
  | some x => .ok x
  | none => .error .out_of_range

/-- The exchange `std::iter_swap(first + i, first + j)`. Both positions must lie inside
the sequence; an exchange with a position outside of it is undefined behaviour. -/
def iter_swap {α : Type} (a : List α) (i : Nat) (j : Int) : Outcome (List α) :=
  match a[i]?, elemAt a j with
  | some x, some y => .ok ((a.set i y).set j.toNat x)
  | _, _ => .error .undefined_behaviour

/-- The loop of `std::shuffle`: `steps` more rounds, the next one at position `i`.
A round draws `j` uniformly from `[0, i]` and exchanges the elements at `i` and `j`. -/
def shuffle.loop {α : Type} (L : RandomLib) :
    Nat → Nat → List α → L.Engine → Outcome (List α)
  | 0, _, a, _ => .ok a
  | steps + 1, i, a, g =>
      let d := L.uniform 0 i g
      match iter_swap a i d.1 with
      | .error e => .error e
      | .ok a1 => shuffle.loop L steps (i + 1) a1 d.2

/-- Modelled from the spec: `std::shuffle(first, last, g)` of the standard library, which
is not among the source files, as the Fisher-Yates algorithm that the spec names
("a full random permutation (shuffle) of a copy of the base sequence using a
Fisher-Yates-equivalent algorithm seeded by that engine"): nothing is done on an empty
range; otherwise position `i` runs from `1` to `n - 1` and the element there is exchanged
with the one at a position drawn from `[0, i]`. -/
def shuffle {α : Type} (L : RandomLib) (a : List α) (g : L.Engine) : Outcome (List α) :=
  match a with
  | [] => .ok []
  | _ :: _ => shuffle.loop L (a.length - 1) 1 a g

/-! ## Main.cpp: the seeds -/

/-- The seeds of both test functions (lines 56-58 and 85-87):
`IntVector seeds(numScenarios); int initSeed = 0; std::iota(seeds.begin(), seeds.end(), initSeed);`.
A negative `numScenarios` converts to a size beyond `max_size()`. -/
def makeSeeds (numScenarios : Int) : Outcome (List Int) :=
  if numScenarios < 0 then .error .length_error
  else
    let initSeed : Int := 0
    .ok ((List.range numScenarios.toNat).map (fun (k : Nat) => initSeed + (k : Int)))

/-! ## Main.cpp: sampling without replacement -/

/-- One round of the loop of `withoutReplacementTests` (lines 65-66):
`auto txnsCopy = txns; std::shuffle(txnsCopy.begin(), txnsCopy.end(), std::mt19937_64(seed));`.
The value is `txnsCopy` after the shuffle. -/
def shuffledCopy (L : RandomLib) (txns : List DailyTransaction) (seed : Int) :
    Outcome (List DailyTransaction) :=
  let txnsCopy := txns
  shuffle L txnsCopy (L.mt19937_64 seed)

/-- The loop `for (const int& seed : seeds)` of `withoutReplacementTests` (lines 63-68),
started with the scenarios collected so far. -/
def withoutReplacementLoop (L : RandomLib) (txns : List DailyTransaction) :
    List Int → List (List DailyTransaction) → Outcome (List (List DailyTransaction))
  | [], scenarios => .ok scenarios
  | seed :: rest, scenarios =>
      match shuffledCopy L txns seed with
      | .error e => .error e
      | .ok txnsCopy => withoutReplacementLoop L txns rest (scenarios ++ [txnsCopy])

/-- The scenario collection of `withoutReplacementTests` (lines 56-68), from the base
transactions `txns` on. -/
def withoutReplacementScenarios (L : RandomLib) (txns : List DailyTransaction)
    (numScenarios : Int) : Outcome (List (List DailyTransaction)) :=
  match makeSeeds numScenarios with
  | .error e => .error e
  | .ok seeds => withoutReplacementLoop L txns seeds []

/-! ## Main.cpp: sampling with replacement -/

/-- The conversion `static_cast<int>(n)` of a size `n` to a 32-bit `int`: the low 32 bits
of `n`, read in two's complement. -/
def toInt32 (n : Nat) : Int :=
  if n % 2 ^ 32 < 2 ^ 31 then ((n % 2 ^ 32 : Nat) : Int)
  else ((n % 2 ^ 32 : Nat) : Int) - 2 ^ 32

/-- The loop of `generateRandIndices` (lines 101-104): `count` more rounds, each of
which pushes one draw `ud(mtEngine)` of the distribution over `[a, b]`. -/
def generateRandIndices.loop (L : RandomLib) (a b : Int) :
    Nat → L.Engine → List Int → List Int
  | 0, _, indices => indices
  | count + 1, mtEngine, indices =>
      let d := L.uniform a b mtEngine
      generateRandIndices.loop L a b count d.2 (indices ++ [d.1])

/-- The constructor `std::uniform_int_distribution<>(a, b)` (line 99), which stores the two
bounds. The library requires `a ≤ b`; the program does not check it, and a construction
with `a > b` is undefined behaviour. -/
def uniform_int_distribution (a b : Int) : Outcome (Int × Int) :=
  if a ≤ b then .ok (a, b) else .error .undefined_behaviour

/-- The lambda `generateRandIndices` (lines 95-107), which captures `txns` by reference:
the engine, `numTransactions`, the distribution `ud(0, numTransactions - 1)`, and the
loop `for (int i = 0; i < numTransactions; ++i)` of `numTransactions` rounds. -/
def generateRandIndices (L : RandomLib) (txns : List DailyTransaction) (seed : Int) :
    Outcome (List Int) :=
  let mtEngine := L.mt19937_64 seed
  let numTransactions := toInt32 txns.length
  match uniform_int_distribution 0 (numTransactions - 1) with
  | .error e => .error e
  | .ok ud =>
      .ok (generateRandIndices.loop L ud.1 ud.2 numTransactions.toNat mtEngine [])

/-- The loop of `generateScenario` (lines 112-115) over the indices not yet visited:
`withReplTransactions.push_back(txns.at(indices.at(i)));`. The position `i` is always
below `indices.size()`, so only `txns.at` can throw. -/
def generateScenario.loop (txns : List DailyTransaction) :
    List Int → List DailyTransaction → Outcome (List DailyTransaction)
  | [], withReplTransactions => .ok withReplTransactions
  | idx :: rest, withReplTransactions =>
      match vectorAt txns idx with
      | .error e => .error e
      | .ok t => generateScenario.loop txns rest (withReplTransactions ++ [t])

/-- The lambda `generateScenario` (lines 109-117), which captures a copy of `txns`. -/
def generateScenario (txns : List DailyTransaction) (indices : List Int) :
    Outcome (List DailyTransaction) :=
  generateScenario.loop txns indices []

/-- One round of the loop of `withReplacementTests` (lines 124-125):
`auto indices = generateRandIndices(seed); auto txnsWithRepl = generateScenario(indices);`. -/
def withReplacementDraw (L : RandomLib) (txns : List DailyTransaction) (seed : Int) :
    Outcome (List DailyTransaction) :=
  match generateRandIndices L txns seed with
  | .error e => .error e
  | .ok indices => generateScenario txns indices

/-- The loop `for (const int& seed : seeds)` of `withReplacementTests` (lines 122-127),
started with the scenarios collected so far. -/
def withReplacementLoop (L : RandomLib) (txns : List DailyTransaction) :
    List Int → List (List DailyTransaction) → Outcome (List (List DailyTransaction))
  | [], scenarios => .ok scenarios
  | seed :: rest, scenarios =>
      match withReplacementDraw L txns seed with
      | .error e => .error e
      | .ok txnsWithRepl => withReplacementLoop L txns rest (scenarios ++ [txnsWithRepl])

/-- The scenario collection of `withReplacementTests` (lines 85-127), from the base
transactions `txns` on. -/
def withReplacementScenarios (L : RandomLib) (txns : List DailyTransaction)
    (numScenarios : Int) : Outcome (List (List DailyTransaction)) :=
  match makeSeeds numScenarios with
  | .error e => .error e
  | .ok seeds => withReplacementLoop L txns seeds []

/-! ## Main.cpp: checkResults -/

/-- The lambda `scenarioTransactionReturns` of `checkResults` (lines 144-152), as a loop
over the transactions not yet visited: `std::cout << txn() << "\t";`. The stream
`std::cout` is the list of the items written to it so far, and `fmt` is the way in
which the stream writes a `double` (`none` being its non-finite values). -/
def scenarioTransactionReturns.loop (fmt : Option ℚ → String) :
    List DailyTransaction → List String → List String
  | [], cout => cout
  | txn :: rest, cout =>
      scenarioTransactionReturns.loop fmt rest (cout ++ [fmt txn.operatorCall, "\t"])

/-- The lambda `scenarioTransactionReturns` of `checkResults`: the loop over the
transactions of `tv`, then `std::cout << "\n";`. -/
def scenarioTransactionReturns (fmt : Option ℚ → String) (tv : List DailyTransaction)
    (cout : List String) : List String :=
  scenarioTransactionReturns.loop fmt tv cout ++ ["\n"]

/-- The loop `for (const auto& scenario : scenarios)` of `checkResults` (lines 154-157). -/
def checkResults.loop (fmt : Option ℚ → String) :
    List (List DailyTransaction) → List String → List String
  | [], cout => cout
  | scenario :: rest, cout =>
      checkResults.loop fmt rest (scenarioTransactionReturns fmt scenario cout)

/-- The function `checkResults` (lines 135-160), from the stream `cout` to the stream
after the report. `scenarios.at(0)` throws on an empty collection; the items written
before an exception are not kept in the result. -/
def checkResults (fmt : Option ℚ → String) (scenarios : List (List DailyTransaction))
    (replacement : Bool) (cout : List String) : Outcome (List String) :=
  let cout1 := cout ++ ["***** Check results of generated scenarios *****", "\n"]
  let cout2 := cout1 ++ ["Scenarios generated ",
    (if replacement then "with replacement." else "without replacement."), "\n"]
  let cout3 := cout2 ++ ["Number of scenarios generated: ", toString scenarios.length, "\n"]
  match vectorAt scenarios 0 with
  | .error e => .error e
  | .ok first =>
      let cout4 := cout3 ++
        ["Number of transactions in each scenario: ", toString first.length, "\n"]
      let cout5 := cout4 ++ ["Matrix of daily transaction returns: ", "\n"]
      let cout6 := checkResults.loop fmt scenarios cout5
      .ok (cout6 ++ ["\n\n"])

/-! ## Main.cpp: the two test functions and main -/

/-- The function `withoutReplacementTests` (lines 49-75): the base transactions, the
seeds and the shuffled scenarios, `auto row = scenarios.at(0);`, and the report of
`checkResults(scenarios, false)`. -/
def withoutReplacementTests (L : RandomLib) (epg : ℚ → Int → ℚ → ℚ → ℚ → Int → List ℚ)
    (fmt : Option ℚ → String) (days : Int) (mktPrice drift volatility : ℚ) (seed : Int)
    (numScenarios : Int) (cout : List String) : Outcome (List String) :=
  match generateSimulatedPath epg days mktPrice drift volatility seed with
  | .error e => .error e
  | .ok txns =>
      match withoutReplacementScenarios L txns numScenarios with
      | .error e => .error e
      | .ok scenarios =>
          match vectorAt scenarios 0 with
          | .error e => .error e
          | .ok _ => checkResults fmt scenarios false cout

/-- The function `withReplacementTests` (lines 77-133): the base transactions, the seeds
and the scenarios drawn with replacement, and the report of
`checkResults(scenarios, true)`. -/
def withReplacementTests (L : RandomLib) (epg : ℚ → Int → ℚ → ℚ → ℚ → Int → List ℚ)
    (fmt : Option ℚ → String) (days : Int) (mktPrice drift volatility : ℚ) (seed : Int)
    (numScenarios : Int) (cout : List String) : Outcome (List String) :=
  match generateSimulatedPath epg days mktPrice drift volatility seed with
  | .error e => .error e
  | .ok txns =>
      match withReplacementScenarios L txns numScenarios with
      | .error e => .error e
      | .ok scenarios => checkResults fmt scenarios true cout

/-- The function `main` (lines 21-27), from an empty stream:
`withoutReplacementTests(7, 100.0, 0.15, 0.25, 106, 15);` and then
`withReplacementTests(7, 100.0, 0.15, 0.25, 106, 15);`. -/
def main (L : RandomLib) (epg : ℚ → Int → ℚ → ℚ → ℚ → Int → List ℚ)
    (fmt : Option ℚ → String) : Outcome (List String) :=
  match withoutReplacementTests L epg fmt 7 100 (15 / 100) (25 / 100) 106 15 [] with
  | .error e => .error e
  | .ok cout => withReplacementTests L epg fmt 7 100 (15 / 100) (25 / 100) 106 15 cout

/-! ## Auxiliary definitions of the statements -/

/-- A concrete price generator, used to evaluate the definitions on concrete inputs:
`days + 1` prices that start at `mktPrice` and rise by one a day. -/
def risingPrices : ℚ → Int → ℚ → ℚ → ℚ → Int → List ℚ :=
  fun mktPrice days _ _ _ _ =>
    (List.range (days.toNat + 1)).map (fun (k : Nat) => mktPrice + (k : ℚ))

/-- A concrete way of writing a return, used to evaluate the definitions on concrete
inputs. -/
def plainFormat : Option ℚ → String
  | none => "nan"
  | some r => if r < 0 then "loss" else "gain"

/-- The compounded growth of a sequence of transactions: the product of `1 + return`
over its transactions, in their order; there is none when the return of one of the
transactions is undefined. -/
def compoundedGrowth : List DailyTransaction → Option ℚ
  | [] => some 1
  | txn :: rest =>
      match txn.operatorCall, compoundedGrowth rest with
      | some r, some g => some ((1 + r) * g)
      | _, _ => none

/-! ## Lemmas on the library model -/

theorem lcg_inRange : lcg.InRange := by
  intro a b (g : Nat) hab
  have hm : (0 : Int) < b - a + 1 := by omega
  have h1 : 0 ≤ (g : Int) % (b - a + 1) := Int.emod_nonneg _ (ne_of_gt hm)
  have h2 : (g : Int) % (b - a + 1) < b - a + 1 := Int.emod_lt_of_pos _ hm
  show a ≤ a + (g : Int) % (b - a + 1) ∧ a + (g : Int) % (b - a + 1) ≤ b
  constructor <;> omega

theorem elemAt_natCast {α : Type} (a : List α) (j : Nat) : elemAt a (j : Int) = a[j]? := by
  simp [elemAt]

theorem elemAt_eq_some {α : Type} {a : List α} {j : Int} {x : α} (h : elemAt a j = some x) :
    0 ≤ j ∧ a[j.toNat]? = some x := by
  unfold elemAt at h
  split at h
  · exact ⟨by assumption, h⟩
  · cases h

theorem elemAt_of_bounds {α : Type} (a : List α) (j : Int) (h0 : 0 ≤ j)
    (h1 : j < a.length) : ∃ x, elemAt a j = some x ∧ a[j.toNat]? = some x := by
  have hj : j.toNat < a.length := by omega
  refine ⟨a[j.toNat], ?_, ?_⟩
  · simp [elemAt, h0, List.getElem?_eq_getElem hj]
  · exact List.getElem?_eq_getElem hj

/-- Putting the head at a position of the tail and that position's element in front. -/
theorem cons_set_perm {α : Type} (h y : α) :
    ∀ (t : List α) (j : Nat), t[j]? = some y → (y :: t.set j h).Perm (h :: t)
  | [], j, hj => by simp at hj
  | c :: t, 0, hj => by
      simp at hj
      subst hj
      simpa using List.Perm.swap h c t
  | c :: t, j + 1, hj => by
      have hj1 : t[j]? = some y := by simpa using hj
      have ih := cons_set_perm h y t j hj1
      calc (y :: (c :: t).set (j + 1) h) = y :: c :: t.set j h := by simp
        _ |>.Perm (c :: y :: t.set j h) := List.Perm.swap c y _
        _ |>.Perm (c :: h :: t) := List.Perm.cons c ih
        _ |>.Perm (h :: c :: t) := List.Perm.swap h c t

/-- Exchanging two elements of a list permutes it. -/
theorem set_set_perm {α : Type} (x y : α) :
    ∀ (a : List α) (i j : Nat), a[i]? = some x → a[j]? = some y →
      ((a.set i y).set j x).Perm a
  | [], i, _, hi, _ => by simp at hi
  | c :: t, 0, 0, hi, hj => by
      simp at hi hj
      subst hi
      simp
  | c :: t, 0, j + 1, hi, hj => by
      simp at hi
      subst hi
      have hj1 : t[j]? = some y := by simpa using hj
      simpa using cons_set_perm c y t j hj1
  | c :: t, i + 1, 0, hi, hj => by
      simp at hj
      subst hj
      have hi1 : t[i]? = some x := by simpa using hi
      simpa using cons_set_perm c x t i hi1
  | c :: t, i + 1, j + 1, hi, hj => by
      have hi1 : t[i]? = some x := by simpa using hi
      have hj1 : t[j]? = some y := by simpa using hj
      simpa using List.Perm.cons c (set_set_perm x y t i j hi1 hj1)

theorem iter_swap_perm {α : Type} (a : List α) (i : Nat) (j : Int) (hi : i < a.length)
    (h0 : 0 ≤ j) (h1 : j < a.length) :
    ∃ r, iter_swap a i j = .ok r ∧ r.Perm a := by
  obtain ⟨y, hy, hy2⟩ := elemAt_of_bounds a j h0 h1
  have hx : a[i]? = some a[i] := List.getElem?_eq_getElem hi
  refine ⟨(a.set i y).set j.toNat a[i], ?_, set_set_perm a[i] y a i j.toNat hx hy2⟩
  simp [iter_swap, hx, hy]

theorem shuffle_loop_perm {α : Type} (L : RandomLib) (hL : L.InRange) :
    ∀ (steps i : Nat) (a : List α) (g : L.Engine), i + steps ≤ a.length →
      ∃ r, shuffle.loop L steps i a g = .ok r ∧ r.Perm a
  | 0, _, a, _, _ => ⟨a, rfl, List.Perm.refl a⟩
  | steps + 1, i, a, g, h => by
      have hd := hL 0 i g (by omega)
      obtain ⟨a1, h1, p1⟩ := iter_swap_perm a i (L.uniform 0 i g).1 (by omega) hd.1 (by omega)
      obtain ⟨r, h2, p2⟩ := shuffle_loop_perm L hL steps (i + 1) a1 (L.uniform 0 i g).2
        (by rw [p1.length_eq]; omega)
      refine ⟨r, ?_, p2.trans p1⟩
      simp only [shuffle.loop, h1]
      exact h2

theorem shuffle_perm {α : Type} (L : RandomLib) (hL : L.InRange) (a : List α)
    (g : L.Engine) : ∃ r, shuffle L a g = .ok r ∧ r.Perm a := by
  cases a with
  | nil => exact ⟨[], rfl, List.Perm.refl _⟩
  | cons c t =>
      have := shuffle_loop_perm L hL ((c :: t).length - 1) 1 (c :: t) g (by simp; omega)
      simpa [shuffle] using this

/-! ## Lemmas on the extraction loop -/

theorem generateSimulatedPath_loop_eq :
    ∀ (prices : List ℚ) (txns : List DailyTransaction), prices ≠ [] →
      generateSimulatedPath.loop prices txns = .ok (txns ++ adjacentPairs prices)
  | [], _, h => absurd rfl h
  | [_], txns, _ => by simp [generateSimulatedPath.loop, adjacentPairs]
  | s :: e :: rest, txns, _ => by
      rw [generateSimulatedPath.loop,
        generateSimulatedPath_loop_eq (e :: rest) _ (List.cons_ne_nil e rest)]
      simp [adjacentPairs]

theorem adjacentPairs_length : ∀ prices : List ℚ, (adjacentPairs prices).length = prices.length - 1
  | [] => rfl
  | [_] => rfl
  | _ :: e :: rest => by
      simp [adjacentPairs, adjacentPairs_length (e :: rest)]

theorem adjacentPairs_getElem? :
    ∀ (prices : List ℚ) (i : Nat) (s e : ℚ), prices[i]? = some s → prices[i + 1]? = some e →
      (adjacentPairs prices)[i]? = some (DailyTransaction.mk s e)
  | [], _, _, _, hs, _ => by simp at hs
  | [_], _, _, _, _, he => by simp at he
  | p0 :: p1 :: rest, 0, s, e, hs, he => by
      simp at hs he
      simp [adjacentPairs, hs, he]
  | p0 :: p1 :: rest, i + 1, s, e, hs, he => by
      have hs1 : (p1 :: rest)[i]? = some s := by simpa using hs
      have he1 : (p1 :: rest)[i + 1]? = some e := by simpa using he
      simpa [adjacentPairs] using adjacentPairs_getElem? (p1 :: rest) i s e hs1 he1

theorem extractTransactions_eq (prices : List ℚ) (h : prices ≠ []) :
    extractTransactions prices = .ok (adjacentPairs prices) := by
  simp [extractTransactions, generateSimulatedPath_loop_eq prices [] h]

/-! ## C1: sampling without replacement permutes the base sequence -/

/-- C1: for every base transaction sequence and every seed, the without-replacement
draw (copy, then shuffle with an engine seeded by the seed) returns a scenario that is
a permutation of the base sequence: it has the same length and every transaction
occurs in it exactly as often as in the base sequence. The draws of the library's
uniform distribution are assumed to lie in the requested range. -/
theorem C1_without_replacement_is_permutation (L : RandomLib) (hL : L.InRange)
    (txns : List DailyTransaction) (seed : Int) :
    ∃ scenario, shuffledCopy L txns seed = .ok scenario ∧ scenario.Perm txns ∧
      scenario.length = txns.length ∧ ∀ t, scenario.count t = txns.count t := by
  obtain ⟨r, hr, hp⟩ := shuffle_perm L hL txns (L.mt19937_64 seed)
  exact ⟨r, hr, hp, hp.length_eq, fun t => hp.count_eq t⟩

/-- The statement of C1 at the engine `lcg`, three transactions and seed 2. -/
theorem C1_without_replacement_is_permutation_witness :
    lcg.InRange ∧
    ∃ scenario, shuffledCopy lcg [⟨100, 110⟩, ⟨110, 99⟩, ⟨99, 100⟩] 2 = .ok scenario ∧
      scenario.Perm [⟨100, 110⟩, ⟨110, 99⟩, ⟨99, 100⟩] ∧
      scenario.length = [(⟨100, 110⟩ : DailyTransaction), ⟨110, 99⟩, ⟨99, 100⟩].length ∧
      ∀ t, scenario.count t = [(⟨100, 110⟩ : DailyTransaction), ⟨110, 99⟩, ⟨99, 100⟩].count t :=
  ⟨lcg_inRange,
    C1_without_replacement_is_permutation lcg lcg_inRange [⟨100, 110⟩, ⟨110, 99⟩, ⟨99, 100⟩] 2⟩

/-! ## C3: the extraction pairs every price with its successor -/

/-- C3: for every price sequence `p` of length `k ≥ 2` the extraction returns exactly
`k - 1` transactions, and for every `i` in `[0, k - 2]` transaction `i` has start price
`p[i]` and end price `p[i + 1]`; so `days + 1` prices give exactly `days` transactions. -/
theorem C3_extraction_adjacent_pairs (p : List ℚ) (hk : 2 ≤ p.length) :
    ∃ txns, extractTransactions p = .ok txns ∧ txns.length = p.length - 1 ∧
      (∀ i, i + 1 < p.length → ∃ s e, p[i]? = some s ∧ p[i + 1]? = some e ∧
        txns[i]? = some (DailyTransaction.mk s e)) ∧
      (∀ days : Int, (p.length : Int) = days + 1 → (txns.length : Int) = days) := by
  have hne : p ≠ [] := by
    intro h
    simp [h] at hk
  refine ⟨adjacentPairs p, extractTransactions_eq p hne, adjacentPairs_length p, ?_, ?_⟩
  · intro i hi
    have h0 : i < p.length := by omega
    exact ⟨p[i], p[i + 1], List.getElem?_eq_getElem h0, List.getElem?_eq_getElem hi,
      adjacentPairs_getElem? p i _ _ (List.getElem?_eq_getElem h0)
        (List.getElem?_eq_getElem hi)⟩
  · intro days hd
    rw [adjacentPairs_length]
    omega

/-- The statement of C3 at the four prices 100, 110, 99, 100. -/
theorem C3_extraction_adjacent_pairs_witness :
    2 ≤ [(100 : ℚ), 110, 99, 100].length ∧
    ∃ txns, extractTransactions [100, 110, 99, 100] = .ok txns ∧
      txns.length = [(100 : ℚ), 110, 99, 100].length - 1 ∧
      (∀ i, i + 1 < [(100 : ℚ), 110, 99, 100].length →
        ∃ s e, [(100 : ℚ), 110, 99, 100][i]? = some s ∧
          [(100 : ℚ), 110, 99, 100][i + 1]? = some e ∧
          txns[i]? = some (DailyTransaction.mk s e)) ∧
      (∀ days : Int, ([(100 : ℚ), 110, 99, 100].length : Int) = days + 1 →
        (txns.length : Int) = days) :=
  ⟨by decide, C3_extraction_adjacent_pairs [100, 110, 99, 100] (by decide)⟩

/-! ## C4: the pairing is a sliding window, not a sequence of disjoint pairs -/

/-- C4, refuted as stated: on the four prices 100, 110, 121, 133 the extraction returns
three transactions and not `4 / 2 = 2`, and transaction 1 is `(110, 121)`, the prices at
positions 1 and 2, and not `(121, 133)`, the prices at positions 2 and 3. -/
theorem C4_disjoint_pairing_counterexample :
    extractTransactions [100, 110, 121, 133] =
        .ok [⟨100, 110⟩, ⟨110, 121⟩, ⟨121, 133⟩] ∧
    ¬ (∃ txns, extractTransactions [100, 110, 121, 133] = .ok txns ∧
        txns.length = [(100 : ℚ), 110, 121, 133].length / 2 ∧
        ∀ i, i < txns.length → ∃ s e, [(100 : ℚ), 110, 121, 133][2 * i]? = some s ∧
          [(100 : ℚ), 110, 121, 133][2 * i + 1]? = some e ∧
          txns[i]? = some (DailyTransaction.mk s e)) := by
  have h : extractTransactions [100, 110, 121, 133] =
      .ok [⟨100, 110⟩, ⟨110, 121⟩, ⟨121, 133⟩] := rfl
  refine ⟨h, ?_⟩
  rintro ⟨txns, h1, h2, -⟩
  rw [h] at h1
  cases h1
  simp at h2

/-- C4, amended: for every price sequence of length `k ≥ 1` the extraction returns
exactly `k - 1` transactions; transaction `i` starts at price `i` and ends at price
`i + 1`, and consecutive transactions overlap: the end price of transaction `i` is the
start price of transaction `i + 1`. -/
theorem C4_sliding_window_pairing (p : List ℚ) (hk : 1 ≤ p.length) :
    ∃ txns, extractTransactions p = .ok txns ∧ txns.length = p.length - 1 ∧
      (∀ i (hi : i < txns.length), ∃ s e, p[i]? = some s ∧ p[i + 1]? = some e ∧
        txns[i].startPrice_ = s ∧ txns[i].endPrice_ = e) ∧
      (∀ i (hi : i + 1 < txns.length), txns[i].endPrice_ = txns[i + 1].startPrice_) := by
  have hne : p ≠ [] := by
    intro h
    simp [h] at hk
  have hlen := adjacentPairs_length p
  have key : ∀ i (hi : i < (adjacentPairs p).length),
      (adjacentPairs p)[i] = DailyTransaction.mk (p[i]) (p[i + 1]) := by
    intro i hi
    have h0 : i < p.length := by omega
    have h1 : i + 1 < p.length := by omega
    have := adjacentPairs_getElem? p i _ _ (List.getElem?_eq_getElem h0)
      (List.getElem?_eq_getElem h1)
    rw [List.getElem?_eq_getElem hi] at this
    exact Option.some.inj this
  refine ⟨adjacentPairs p, extractTransactions_eq p hne, hlen, ?_, ?_⟩
  · intro i hi
    have h0 : i < p.length := by omega
    have h1 : i + 1 < p.length := by omega
    refine ⟨p[i], p[i + 1], List.getElem?_eq_getElem h0, List.getElem?_eq_getElem h1, ?_, ?_⟩
    · rw [key i hi]
    · rw [key i hi]
  · intro i hi
    rw [key i (by omega), key (i + 1) hi]

/-- The statement of the amended C4 at the three prices 100, 110, 121. -/
theorem C4_sliding_window_pairing_witness :
    1 ≤ [(100 : ℚ), 110, 121].length ∧
    ∃ txns, extractTransactions [100, 110, 121] = .ok txns ∧
      txns.length = [(100 : ℚ), 110, 121].length - 1 ∧
      (∀ i (hi : i < txns.length), ∃ s e, [(100 : ℚ), 110, 121][i]? = some s ∧
        [(100 : ℚ), 110, 121][i + 1]? = some e ∧
        txns[i].startPrice_ = s ∧ txns[i].endPrice_ = e) ∧
      (∀ i (hi : i + 1 < txns.length), txns[i].endPrice_ = txns[i + 1].startPrice_) :=
  ⟨by decide, C4_sliding_window_pairing [100, 110, 121] (by decide)⟩

/-! ## C2: sampling with replacement draws valid indices -/

theorem toInt32_of_lt (n : Nat) (h : n < 2 ^ 31) : toInt32 n = n := by
  have e : n % 2 ^ 32 = n := Nat.mod_eq_of_lt (by omega)
  rw [toInt32, e, if_pos h]

theorem generateRandIndices_loop_spec (L : RandomLib) (hL : L.InRange) (a b : Int)
    (hab : a ≤ b) :
    ∀ (count : Nat) (g : L.Engine) (indices : List Int),
      ∃ ds, generateRandIndices.loop L a b count g indices = indices ++ ds ∧
        ds.length = count ∧ ∀ d ∈ ds, a ≤ d ∧ d ≤ b
  | 0, _, indices => ⟨[], by simp [generateRandIndices.loop]⟩
  | count + 1, g, indices => by
      obtain ⟨ds, h1, h2, h3⟩ := generateRandIndices_loop_spec L hL a b hab count
        (L.uniform a b g).2 (indices ++ [(L.uniform a b g).1])
      refine ⟨(L.uniform a b g).1 :: ds, ?_, by simp [h2], ?_⟩
      · simp only [generateRandIndices.loop, h1]
        simp
      · intro d hd
        rcases List.mem_cons.mp hd with rfl | hd
        · exact hL a b g hab
        · exact h3 d hd

theorem generateScenario_loop_spec (txns : List DailyTransaction) :
    ∀ (indices : List Int) (acc : List DailyTransaction),
      (∀ idx ∈ indices, 0 ≤ idx ∧ idx < (txns.length : Int)) →
      ∃ picked, generateScenario.loop txns indices acc = .ok (acc ++ picked) ∧
        indices.map (elemAt txns) = picked.map some
  | [], acc, _ => ⟨[], by simp [generateScenario.loop]⟩
  | idx :: rest, acc, h => by
      obtain ⟨t, ht, -⟩ := elemAt_of_bounds txns idx (h idx (by simp)).1 (h idx (by simp)).2
      obtain ⟨picked, h1, h2⟩ := generateScenario_loop_spec txns rest (acc ++ [t])
        (fun i hi => h i (List.mem_cons_of_mem _ hi))
      refine ⟨t :: picked, ?_, by simp [ht, h2]⟩
      simp only [generateScenario.loop, vectorAt, ht, h1]
      simp

theorem generateRandIndices_ok (L : RandomLib) (hL : L.InRange)
    (txns : List DailyTransaction) (seed : Int) (hm : 1 ≤ toInt32 txns.length) :
    ∃ ds, generateRandIndices L txns seed = .ok ds ∧
      ds.length = (toInt32 txns.length).toNat ∧
      ∀ d ∈ ds, 0 ≤ d ∧ d ≤ toInt32 txns.length - 1 := by
  obtain ⟨ds, h1, h2, h3⟩ := generateRandIndices_loop_spec L hL 0
    (toInt32 txns.length - 1) (by omega) (toInt32 txns.length).toNat (L.mt19937_64 seed) []
  refine ⟨ds, ?_, h2, h3⟩
  have hud : uniform_int_distribution 0 (toInt32 txns.length - 1) =
      .ok (0, toInt32 txns.length - 1) := by
    unfold uniform_int_distribution
    rw [if_pos (by omega)]
  simp only [generateRandIndices, hud, h1, List.nil_append]

theorem generateRandIndices_undefined (L : RandomLib) (txns : List DailyTransaction)
    (seed : Int) (hm : toInt32 txns.length ≤ 0) :
    generateRandIndices L txns seed = .error .undefined_behaviour := by
  have hud : uniform_int_distribution 0 (toInt32 txns.length - 1) =
      .error .undefined_behaviour := by
    unfold uniform_int_distribution
    rw [if_neg (by omega)]
  simp only [generateRandIndices, hud]

theorem withReplacementDraw_of_indices (L : RandomLib) (txns : List DailyTransaction)
    (seed : Int) (ds : List Int) (h : generateRandIndices L txns seed = .ok ds) :
    withReplacementDraw L txns seed = generateScenario txns ds := by
  simp only [withReplacementDraw, h]

theorem withReplacementDraw_undefined (L : RandomLib) (txns : List DailyTransaction)
    (seed : Int) (hm : toInt32 txns.length ≤ 0) :
    withReplacementDraw L txns seed = .error .undefined_behaviour := by
  simp only [withReplacementDraw, generateRandIndices_undefined L txns seed hm]

/-- C2: for every base transaction sequence of length `n ≥ 1` (a length that the
program's `int` holds) and every seed, the with-replacement draw makes exactly `n`
index draws, every drawn index lies in `[0, n - 1]`, no checked lookup throws, and
the scenario has exactly `n` transactions, the one at position `j` being the base
transaction at the `j`-th drawn index. The draws of the library's uniform distribution
are assumed to lie in the requested range. -/
theorem C2_with_replacement_indices_valid (L : RandomLib) (hL : L.InRange)
    (txns : List DailyTransaction) (seed : Int) (hn : 1 ≤ txns.length)
    (hint : txns.length < 2 ^ 31) :
    ∃ indices, generateRandIndices L txns seed = .ok indices ∧
      indices.length = txns.length ∧
      (∀ idx ∈ indices, 0 ≤ idx ∧ idx ≤ (txns.length : Int) - 1) ∧
      (∀ idx ∈ indices, ∃ t, vectorAt txns idx = .ok t) ∧
      ∃ scenario, withReplacementDraw L txns seed = .ok scenario ∧
        scenario.length = txns.length ∧
        ∀ j, j < txns.length → ∃ idx t, indices[j]? = some idx ∧
          txns[idx.toNat]? = some t ∧ scenario[j]? = some t := by
  have hcast := toInt32_of_lt txns.length hint
  obtain ⟨ds, hidx, h2, h3⟩ := generateRandIndices_ok L hL txns seed (by rw [hcast]; omega)
  rw [hcast] at h2 h3
  rw [Int.toNat_ofNat] at h2
  have hb : ∀ idx ∈ ds, 0 ≤ idx ∧ idx < (txns.length : Int) := by
    intro idx hi
    have := h3 idx hi
    omega
  obtain ⟨picked, h4, h5⟩ := generateScenario_loop_spec txns ds [] hb
  have hlen : picked.length = ds.length := by
    have := congrArg List.length h5
    simpa using this.symm
  refine ⟨ds, hidx, h2, h3, ?_, picked, ?_, by omega, ?_⟩
  · intro idx hi
    obtain ⟨t, ht, -⟩ := elemAt_of_bounds txns idx (hb idx hi).1 (hb idx hi).2
    exact ⟨t, by simp [vectorAt, ht]⟩
  · rw [withReplacementDraw_of_indices L txns seed ds hidx]
    simpa [generateScenario] using h4
  · intro j hj
    have hjd : j < ds.length := by omega
    have hjp : j < picked.length := by omega
    have h6 := congrArg (fun l => l[j]?) h5
    simp only [List.getElem?_map, List.getElem?_eq_getElem hjd,
      List.getElem?_eq_getElem hjp, Option.map_some'] at h6
    obtain ⟨-, h7⟩ := elemAt_eq_some (Option.some.inj h6)
    exact ⟨ds[j], picked[j], List.getElem?_eq_getElem hjd, h7, List.getElem?_eq_getElem hjp⟩

/-- The statement of C2 at the engine `lcg`, three transactions and seed 5. -/
theorem C2_with_replacement_indices_valid_witness :
    lcg.InRange ∧ 1 ≤ [(⟨100, 110⟩ : DailyTransaction), ⟨110, 99⟩, ⟨99, 100⟩].length ∧
    [(⟨100, 110⟩ : DailyTransaction), ⟨110, 99⟩, ⟨99, 100⟩].length < 2 ^ 31 ∧
    ∃ indices,
      generateRandIndices lcg [⟨100, 110⟩, ⟨110, 99⟩, ⟨99, 100⟩] 5 = .ok indices ∧
      indices.length = [(⟨100, 110⟩ : DailyTransaction), ⟨110, 99⟩, ⟨99, 100⟩].length ∧
      (∀ idx ∈ indices, 0 ≤ idx ∧
        idx ≤ ([(⟨100, 110⟩ : DailyTransaction), ⟨110, 99⟩, ⟨99, 100⟩].length : Int) - 1) ∧
      (∀ idx ∈ indices,
        ∃ t, vectorAt [(⟨100, 110⟩ : DailyTransaction), ⟨110, 99⟩, ⟨99, 100⟩] idx = .ok t) ∧
      ∃ scenario,
        withReplacementDraw lcg [⟨100, 110⟩, ⟨110, 99⟩, ⟨99, 100⟩] 5 = .ok scenario ∧
        scenario.length = [(⟨100, 110⟩ : DailyTransaction), ⟨110, 99⟩, ⟨99, 100⟩].length ∧
        ∀ j, j < [(⟨100, 110⟩ : DailyTransaction), ⟨110, 99⟩, ⟨99, 100⟩].length →
          ∃ idx t, indices[j]? = some idx ∧
            [(⟨100, 110⟩ : DailyTransaction), ⟨110, 99⟩, ⟨99, 100⟩][idx.toNat]? = some t ∧
            scenario[j]? = some t :=
  ⟨lcg_inRange, by decide, by decide,
    C2_with_replacement_indices_valid lcg lcg_inRange [⟨100, 110⟩, ⟨110, 99⟩, ⟨99, 100⟩] 5
      (by decide) (by decide)⟩

/-! ## Lemmas on the scenario loops -/

theorem toInt32_le (n : Nat) : toInt32 n ≤ n := by
  have e : n % 2 ^ 32 ≤ n := Nat.mod_le n _
  unfold toInt32
  split <;> omega

theorem toInt32_pos (n : Nat) (hn : 1 ≤ n) (hint : n < 2 ^ 31) : 1 ≤ toInt32 n := by
  rw [toInt32_of_lt n hint]
  omega

theorem withReplacementDraw_total (L : RandomLib) (hL : L.InRange)
    (txns : List DailyTransaction) (hm : 1 ≤ toInt32 txns.length) (seed : Int) :
    ∃ r, withReplacementDraw L txns seed = .ok r := by
  have hle := toInt32_le txns.length
  obtain ⟨ds, hidx, -, h3⟩ := generateRandIndices_ok L hL txns seed hm
  obtain ⟨picked, h4, -⟩ := generateScenario_loop_spec txns ds [] (by
    intro idx hi
    have := h3 idx hi
    omega)
  refine ⟨picked, ?_⟩
  rw [withReplacementDraw_of_indices L txns seed ds hidx]
  simpa [generateScenario] using h4

theorem map_ok_of_total {β : Type} (f : Int → Outcome β) (hf : ∀ s, ∃ r, f s = .ok r) :
    ∀ seeds : List Int, ∃ rs : List β, seeds.map f = rs.map Except.ok
  | [] => ⟨[], rfl⟩
  | s :: rest => by
      obtain ⟨r, hr⟩ := hf s
      obtain ⟨rs, hrs⟩ := map_ok_of_total f hf rest
      exact ⟨r :: rs, by simp [hr, hrs]⟩

theorem getElem?_of_map_ok {β : Type} (f : Int → Outcome β) {seeds : List Int}
    {rs : List β} (h : seeds.map f = rs.map Except.ok) :
    rs.length = seeds.length ∧
      ∀ (i : Nat) (s : Int), seeds[i]? = some s → ∃ r, f s = .ok r ∧ rs[i]? = some r := by
  have hlen : rs.length = seeds.length := by
    have := congrArg List.length h
    simpa using this.symm
  refine ⟨hlen, ?_⟩
  intro i s hs
  have hi : i < seeds.length := (List.getElem?_eq_some.mp hs).1
  have hir : i < rs.length := by omega
  have h6 := congrArg (fun l => l[i]?) h
  simp only [List.getElem?_map, hs, List.getElem?_eq_getElem hir, Option.map_some'] at h6
  exact ⟨rs[i], Option.some.inj h6, List.getElem?_eq_getElem hir⟩

theorem withoutReplacementLoop_spec (L : RandomLib) (txns : List DailyTransaction) :
    ∀ (seeds : List Int) (acc rs : List (List DailyTransaction)),
      seeds.map (shuffledCopy L txns) = rs.map Except.ok →
      withoutReplacementLoop L txns seeds acc = .ok (acc ++ rs)
  | [], acc, rs, h => by
      have : rs = [] := by simpa using h.symm
      simp [withoutReplacementLoop, this]
  | s :: rest, acc, [], h => by simp at h
  | s :: rest, acc, r :: rs, h => by
      simp only [List.map_cons, List.cons.injEq] at h
      simp only [withoutReplacementLoop, h.1,
        withoutReplacementLoop_spec L txns rest (acc ++ [r]) rs h.2]
      simp

theorem withReplacementLoop_spec (L : RandomLib) (txns : List DailyTransaction) :
    ∀ (seeds : List Int) (acc rs : List (List DailyTransaction)),
      seeds.map (withReplacementDraw L txns) = rs.map Except.ok →
      withReplacementLoop L txns seeds acc = .ok (acc ++ rs)
  | [], acc, rs, h => by
      have : rs = [] := by simpa using h.symm
      subst this
      rw [withReplacementLoop, List.append_nil]
  | s :: rest, acc, [], h => by simp at h
  | s :: rest, acc, r :: rs, h => by
      rw [List.map_cons, List.map_cons, List.cons.injEq] at h
      rw [withReplacementLoop, h.1]
      show withReplacementLoop L txns rest (acc ++ [r]) = .ok (acc ++ r :: rs)
      rw [withReplacementLoop_spec L txns rest (acc ++ [r]) rs h.2, List.append_assoc]
      rfl

theorem makeSeeds_spec (numScenarios : Int) (h : 0 ≤ numScenarios) :
    makeSeeds numScenarios = .ok ((List.range numScenarios.toNat).map (fun (k : Nat) => (k : Int))) := by
  have : ¬ numScenarios < 0 := by omega
  simp [makeSeeds, this]

/-! ## C5: both samplers are functions of the base sequence and the seed -/

/-- C5: a draw depends on nothing but the base sequence and the seed. Whenever two runs
of a sampler over the same base sequence use the same seed, at whatever positions of
their seed lists, both runs complete and hold the same scenario at these positions:
the shuffled copy for that seed without replacement, and with replacement (on a base
sequence of a length from 1 up to the largest `int`) the scenario built from the one
index sequence that the seed yields. The draws of the library's uniform distribution
are assumed to lie in the requested range. -/
theorem C5_samplers_deterministic (L : RandomLib) (hL : L.InRange)
    (txns : List DailyTransaction) (seedsA seedsB : List Int) (i j : Nat) (seed : Int)
    (hA : seedsA[i]? = some seed) (hB : seedsB[j]? = some seed) :
    (∃ runA runB scenario, withoutReplacementLoop L txns seedsA [] = .ok runA ∧
      withoutReplacementLoop L txns seedsB [] = .ok runB ∧
      shuffledCopy L txns seed = .ok scenario ∧
      runA[i]? = some scenario ∧ runB[j]? = some scenario) ∧
    (1 ≤ txns.length → txns.length < 2 ^ 31 →
      ∃ runA runB indices scenario, withReplacementLoop L txns seedsA [] = .ok runA ∧
        withReplacementLoop L txns seedsB [] = .ok runB ∧
        generateRandIndices L txns seed = .ok indices ∧
        generateScenario txns indices = .ok scenario ∧
        runA[i]? = some scenario ∧ runB[j]? = some scenario) := by
  constructor
  · have tot : ∀ s, ∃ r, shuffledCopy L txns s = .ok r := fun s =>
      (shuffle_perm L hL txns (L.mt19937_64 s)).imp fun _ h => h.1
    obtain ⟨rsA, hmA⟩ := map_ok_of_total _ tot seedsA
    obtain ⟨rsB, hmB⟩ := map_ok_of_total _ tot seedsB
    obtain ⟨a, ha1, ha2⟩ := (getElem?_of_map_ok _ hmA).2 i seed hA
    obtain ⟨b, hb1, hb2⟩ := (getElem?_of_map_ok _ hmB).2 j seed hB
    have hab : b = a := Except.ok.inj (hb1.symm.trans ha1)
    subst hab
    exact ⟨rsA, rsB, b, by simpa using withoutReplacementLoop_spec L txns seedsA [] rsA hmA,
      by simpa using withoutReplacementLoop_spec L txns seedsB [] rsB hmB, ha1, ha2, hb2⟩
  · intro hn hint
    have hm := toInt32_pos txns.length hn hint
    have tot : ∀ s, ∃ r, withReplacementDraw L txns s = .ok r :=
      withReplacementDraw_total L hL txns hm
    obtain ⟨rsA, hmA⟩ := map_ok_of_total _ tot seedsA
    obtain ⟨rsB, hmB⟩ := map_ok_of_total _ tot seedsB
    obtain ⟨a, ha1, ha2⟩ := (getElem?_of_map_ok _ hmA).2 i seed hA
    obtain ⟨b, hb1, hb2⟩ := (getElem?_of_map_ok _ hmB).2 j seed hB
    have hab : b = a := Except.ok.inj (hb1.symm.trans ha1)
    subst hab
    obtain ⟨ds, hidx, -, -⟩ := generateRandIndices_ok L hL txns seed hm
    exact ⟨rsA, rsB, ds, b, by simpa using withReplacementLoop_spec L txns seedsA [] rsA hmA,
      by simpa using withReplacementLoop_spec L txns seedsB [] rsB hmB, hidx,
      (withReplacementDraw_of_indices L txns seed ds hidx).symm.trans ha1, ha2, hb2⟩

/-- The statement of C5 at the engine `lcg`, two transactions, and seed 1 at position 1
of the seeds 0, 1, 2 and at position 0 of the seeds 1, 7. -/
theorem C5_samplers_deterministic_witness :
    lcg.InRange ∧ [(0 : Int), 1, 2][1]? = some 1 ∧ [(1 : Int), 7][0]? = some 1 ∧
    (∃ runA runB scenario,
      withoutReplacementLoop lcg [⟨100, 110⟩, ⟨110, 99⟩] [0, 1, 2] [] = .ok runA ∧
      withoutReplacementLoop lcg [⟨100, 110⟩, ⟨110, 99⟩] [1, 7] [] = .ok runB ∧
      shuffledCopy lcg [⟨100, 110⟩, ⟨110, 99⟩] 1 = .ok scenario ∧
      runA[1]? = some scenario ∧ runB[0]? = some scenario) ∧
    (∃ runA runB indices scenario,
      withReplacementLoop lcg [⟨100, 110⟩, ⟨110, 99⟩] [0, 1, 2] [] = .ok runA ∧
      withReplacementLoop lcg [⟨100, 110⟩, ⟨110, 99⟩] [1, 7] [] = .ok runB ∧
      generateRandIndices lcg [⟨100, 110⟩, ⟨110, 99⟩] 1 = .ok indices ∧
      generateScenario [⟨100, 110⟩, ⟨110, 99⟩] indices = .ok scenario ∧
      runA[1]? = some scenario ∧ runB[0]? = some scenario) :=
  have h := C5_samplers_deterministic lcg lcg_inRange [⟨100, 110⟩, ⟨110, 99⟩] [0, 1, 2]
    [1, 7] 1 0 1 rfl rfl
  ⟨lcg_inRange, rfl, rfl, h.1, h.2 (by decide) (by decide)⟩

/-! ## C6: the collection follows the order of the seeds -/

/-- C6: for every `numScenarios ≥ 1` the seed list is `0, 1, ..., numScenarios - 1`
(of length `numScenarios`, seed `i` at position `i`, without repetition), and in both
modes (with replacement: on a base sequence of a length from 1 up to the largest `int`)
the collection holds exactly `numScenarios` scenarios, the one at position `i` being
the draw made with seed `i`. The draws of the library's uniform distribution are
assumed to lie in the requested range. -/
theorem C6_collection_in_seed_order (L : RandomLib) (hL : L.InRange)
    (txns : List DailyTransaction) (numScenarios : Int) (hpos : 1 ≤ numScenarios) :
    (∃ seeds, makeSeeds numScenarios = .ok seeds ∧ (seeds.length : Int) = numScenarios ∧
      (∀ i : Nat, (i : Int) < numScenarios → seeds[i]? = some (i : Int)) ∧ seeds.Nodup) ∧
    (∃ scenarios, withoutReplacementScenarios L txns numScenarios = .ok scenarios ∧
      (scenarios.length : Int) = numScenarios ∧
      ∀ i : Nat, (i : Int) < numScenarios →
        ∃ sc, shuffledCopy L txns i = .ok sc ∧ scenarios[i]? = some sc) ∧
    (1 ≤ txns.length → txns.length < 2 ^ 31 →
      ∃ scenarios, withReplacementScenarios L txns numScenarios = .ok scenarios ∧
        (scenarios.length : Int) = numScenarios ∧
        ∀ i : Nat, (i : Int) < numScenarios →
          ∃ sc, withReplacementDraw L txns i = .ok sc ∧ scenarios[i]? = some sc) := by
  have hseeds := makeSeeds_spec numScenarios (by omega)
  have hlen : (((List.range numScenarios.toNat).map (fun (k : Nat) => (k : Int))).length : Int) =
      numScenarios := by
    simp
    omega
  have hget : ∀ i : Nat, (i : Int) < numScenarios →
      ((List.range numScenarios.toNat).map (fun (k : Nat) => (k : Int)))[i]? = some (i : Int) := by
    intro i hi
    have : i < numScenarios.toNat := by omega
    simp [List.getElem?_range this]
  refine ⟨⟨_, hseeds, hlen, hget, ?_⟩, ?_, ?_⟩
  · exact List.Nodup.map (fun a b h => by exact_mod_cast h) (List.nodup_range _)
  · have tot : ∀ s, ∃ r, shuffledCopy L txns s = .ok r := fun s =>
      (shuffle_perm L hL txns (L.mt19937_64 s)).imp fun _ h => h.1
    obtain ⟨rs, hm⟩ := map_ok_of_total _ tot ((List.range numScenarios.toNat).map
      (fun (k : Nat) => (k : Int)))
    have hs := getElem?_of_map_ok _ hm
    refine ⟨rs, ?_, by omega, fun i hi => hs.2 i i (hget i hi)⟩
    rw [withoutReplacementScenarios, hseeds]
    simpa using withoutReplacementLoop_spec L txns _ [] rs hm
  · intro hn hint
    obtain ⟨rs, hm⟩ := map_ok_of_total _
      (withReplacementDraw_total L hL txns (toInt32_pos txns.length hn hint))
      ((List.range numScenarios.toNat).map (fun (k : Nat) => (k : Int)))
    have hs := getElem?_of_map_ok _ hm
    refine ⟨rs, ?_, by omega, fun i hi => hs.2 i i (hget i hi)⟩
    rw [withReplacementScenarios, hseeds]
    simpa using withReplacementLoop_spec L txns _ [] rs hm

/-- The statement of C6 at the engine `lcg`, two transactions and three scenarios. -/
theorem C6_collection_in_seed_order_witness :
    lcg.InRange ∧ (1 : Int) ≤ 3 ∧
    (∃ seeds, makeSeeds 3 = .ok seeds ∧ (seeds.length : Int) = 3 ∧
      (∀ i : Nat, (i : Int) < 3 → seeds[i]? = some (i : Int)) ∧ seeds.Nodup) ∧
    (∃ scenarios,
      withoutReplacementScenarios lcg [⟨100, 110⟩, ⟨110, 99⟩] 3 = .ok scenarios ∧
      (scenarios.length : Int) = 3 ∧
      ∀ i : Nat, (i : Int) < 3 →
        ∃ sc, shuffledCopy lcg [⟨100, 110⟩, ⟨110, 99⟩] i = .ok sc ∧
          scenarios[i]? = some sc) ∧
    (∃ scenarios,
      withReplacementScenarios lcg [⟨100, 110⟩, ⟨110, 99⟩] 3 = .ok scenarios ∧
      (scenarios.length : Int) = 3 ∧
      ∀ i : Nat, (i : Int) < 3 →
        ∃ sc, withReplacementDraw lcg [⟨100, 110⟩, ⟨110, 99⟩] i = .ok sc ∧
          scenarios[i]? = some sc) :=
  have h := C6_collection_in_seed_order lcg lcg_inRange [⟨100, 110⟩, ⟨110, 99⟩] 3
    (by decide)
  ⟨lcg_inRange, by decide, h.1, h.2.1, h.2.2 (by decide) (by decide)⟩

/-! ## C7: the return of a transaction -/

/-- C7: for every start price other than zero and every end price, the evaluated
return is `(endPrice - startPrice) / startPrice`; from 100 to 110 it is `1 / 10` and
from 100 to 90 it is `-1 / 10`, exactly. -/
theorem C7_return_formula (startPrice endPrice : ℚ) (h : startPrice ≠ 0) :
    (DailyTransaction.mk startPrice endPrice).operatorCall =
        some ((endPrice - startPrice) / startPrice) ∧
    (DailyTransaction.mk 100 110).operatorCall = some (1 / 10) ∧
    (DailyTransaction.mk 100 90).operatorCall = some (-1 / 10) := by
  refine ⟨by simp [DailyTransaction.operatorCall, quotient, h], ?_, ?_⟩ <;>
    norm_num [DailyTransaction.operatorCall, quotient]

/-- The statement of C7 at the start price 80 and the end price 100. -/
theorem C7_return_formula_witness :
    (80 : ℚ) ≠ 0 ∧
    (DailyTransaction.mk 80 100).operatorCall = some ((100 - 80) / 80) ∧
    (DailyTransaction.mk 100 110).operatorCall = some (1 / 10) ∧
    (DailyTransaction.mk 100 90).operatorCall = some (-1 / 10) :=
  ⟨by norm_num, C7_return_formula 80 100 (by norm_num)⟩

/-! ## C8: sampling with replacement from an empty base sequence -/

theorem toInt32_zero : toInt32 0 = 0 := toInt32_of_lt 0 (by decide)

theorem withReplacementLoop_undefined (L : RandomLib) (txns : List DailyTransaction)
    (hm : toInt32 txns.length ≤ 0) (seed : Int) (rest : List Int)
    (acc : List (List DailyTransaction)) :
    withReplacementLoop L txns (seed :: rest) acc = .error .undefined_behaviour := by
  rw [withReplacementLoop, withReplacementDraw_undefined L txns seed hm]

theorem withReplacementScenarios_undefined (L : RandomLib) (txns : List DailyTransaction)
    (hm : toInt32 txns.length ≤ 0) (numScenarios : Int) (hpos : 1 ≤ numScenarios) :
    withReplacementScenarios L txns numScenarios = .error .undefined_behaviour := by
  obtain ⟨k, hk⟩ : ∃ k : Nat, numScenarios.toNat = k + 1 := ⟨numScenarios.toNat - 1, by omega⟩
  rw [withReplacementScenarios, makeSeeds_spec numScenarios (by omega), hk,
    List.range_succ_eq_map]
  exact withReplacementLoop_undefined L txns hm _ _ _

/-- C8, refuted as stated: with the engine `lcg` and seed 0, sampling with replacement
from the empty base sequence does not end in an explicit error, neither of the two
exceptions: the program constructs the distribution over the empty range `[0, -1]`,
which is undefined behaviour. -/
theorem C8_with_replacement_empty_counterexample :
    generateRandIndices lcg [] 0 = .error .undefined_behaviour ∧
    withReplacementDraw lcg [] 0 = .error .undefined_behaviour ∧
    ¬ (withReplacementDraw lcg [] 0 = .error .out_of_range ∨
      withReplacementDraw lcg [] 0 = .error .length_error) := by
  have h : withReplacementDraw lcg [] 0 = .error .undefined_behaviour :=
    withReplacementDraw_undefined lcg [] 0 (by rw [List.length_nil, toInt32_zero])
  refine ⟨generateRandIndices_undefined lcg [] 0 (by rw [List.length_nil, toInt32_zero]),
    h, ?_⟩
  rw [h]
  simp

/-- C8, amended: for every seed, sampling with replacement from a base sequence of
length 0 raises no explicit error and defines no scenario: the program checks nothing,
and `generateRandIndices` constructs the distribution with the bounds `0` and `-1`,
outside of the library's requirement `a ≤ b`, which is undefined behaviour; so is
every collection of at least one scenario, while for `numScenarios = 0` no draw is
made and the collection is empty. -/
theorem C8_with_replacement_empty_undefined (L : RandomLib) (seed : Int) (m : Nat) :
    uniform_int_distribution 0 (toInt32 ([] : List DailyTransaction).length - 1) =
      .error .undefined_behaviour ∧
    generateRandIndices L [] seed = .error .undefined_behaviour ∧
    withReplacementDraw L [] seed = .error .undefined_behaviour ∧
    withReplacementScenarios L [] ((m : Int) + 1) = .error .undefined_behaviour ∧
    withReplacementScenarios L [] 0 = .ok [] := by
  have hm : toInt32 ([] : List DailyTransaction).length ≤ 0 := by
    rw [List.length_nil, toInt32_zero]
  refine ⟨?_, generateRandIndices_undefined L [] seed hm,
    withReplacementDraw_undefined L [] seed hm,
    withReplacementScenarios_undefined L [] hm _ (by omega), rfl⟩
  rw [List.length_nil, toInt32_zero]
  rfl

/-! ## C9: sampling without replacement from an empty base sequence -/

/-- C9: for every seed, the without-replacement draw on a base sequence of length 0
does nothing and returns the empty scenario without error; a collection of `m` such
scenarios is built without error. -/
theorem C9_without_replacement_empty (L : RandomLib) (seed : Int) (m : Nat) :
    shuffledCopy L [] seed = .ok [] ∧
    withoutReplacementScenarios L [] (m : Int) = .ok (List.replicate m []) := by
  refine ⟨rfl, ?_⟩
  rw [withoutReplacementScenarios, makeSeeds_spec (m : Int) (by omega)]
  have := withoutReplacementLoop_spec L [] ((List.range (m : Int).toNat).map
    (fun (k : Nat) => (k : Int))) [] (List.replicate m []) (by
      have e : ∀ s, shuffledCopy L [] s = .ok [] := fun _ => rfl
      simp [e, Function.comp_def])
  simpa using this

/-! ## C10: fewer than two prices -/

/-- C10, refuted as stated: on the empty price sequence the extraction neither returns
an empty transaction sequence nor throws an exception: the loop is entered and reads
past the end of the vector, which is undefined behaviour. -/
theorem C10_no_prices_counterexample :
    extractTransactions [] = .error .undefined_behaviour ∧
    ¬ (extractTransactions [] = .ok [] ∨ extractTransactions [] = .error .out_of_range ∨
      extractTransactions [] = .error .length_error) := by
  refine ⟨rfl, ?_⟩
  have h : extractTransactions [] = .error .undefined_behaviour := rfl
  rw [h]
  simp

/-- C10, amended: for every price sequence of length below 2 the extraction never
returns a transaction; on a single price the loop is not entered and the empty
transaction sequence is returned; on no price at all there is no check, and the loop
reads past the end of the vector (undefined behaviour, not an explicit failure). -/
theorem C10_fewer_than_two_prices (p : List ℚ) (hk : p.length < 2) :
    (p.length = 1 → extractTransactions p = .ok []) ∧
    (p.length = 0 → extractTransactions p = .error .undefined_behaviour) ∧
    ∀ txns, extractTransactions p = .ok txns → txns = [] := by
  match p, hk with
  | [], _ => exact ⟨by simp, fun _ => rfl, fun txns h => by cases h⟩
  | [x], _ =>
      refine ⟨fun _ => rfl, by simp, fun txns h => ?_⟩
      have e : extractTransactions [x] = .ok [] := rfl
      rw [e] at h
      cases h
      rfl
  | _ :: _ :: _, h => exact absurd h (by simp)

/-- The statement of the amended C10 at the single price 100. -/
theorem C10_fewer_than_two_prices_witness :
    [(100 : ℚ)].length < 2 ∧
    ([(100 : ℚ)].length = 1 → extractTransactions [100] = .ok []) ∧
    ([(100 : ℚ)].length = 0 → extractTransactions [100] = .error .undefined_behaviour) ∧
    ∀ txns, extractTransactions [100] = .ok txns → txns = [] :=
  ⟨by decide, C10_fewer_than_two_prices [100] (by decide)⟩

/-! ## C13: the scenarios do not depend on one another -/

theorem seeds_succ (m : Nat) :
    (List.range (m + 1)).map (fun (k : Nat) => (k : Int)) =
      (List.range m).map (fun (k : Nat) => (k : Int)) ++ [(m : Int)] := by
  simp [List.range_succ]

theorem map_ok_take {β : Type} (f : Int → Outcome β) {seeds : List Int} {rs : List β}
    (last : Int) (m : Nat) (hm : seeds.length = m)
    (h : (seeds ++ [last]).map f = rs.map Except.ok) :
    seeds.map f = (rs.take m).map Except.ok := by
  have h1 := congrArg (List.take m) h
  rw [List.map_append, List.take_append_of_le_length (by simp [hm]), ← List.map_take,
    ← List.map_take] at h1
  rw [← h1, List.take_of_length_le (by omega)]

theorem makeSeeds_natCast (m : Nat) :
    makeSeeds (m : Int) = .ok ((List.range m).map (fun (k : Nat) => (k : Int))) := by
  rw [makeSeeds_spec _ (by omega)]
  simp

theorem makeSeeds_succ (m : Nat) :
    makeSeeds ((m : Int) + 1) =
      .ok ((List.range m).map (fun (k : Nat) => (k : Int)) ++ [(m : Int)]) := by
  have h := makeSeeds_natCast (m + 1)
  rw [seeds_succ] at h
  rw [← h]
  push_cast
  rfl

theorem seeds_getElem? (m i : Nat) (hi : i < m) :
    ((List.range m).map (fun (k : Nat) => (k : Int)))[i]? = some (i : Int) := by
  simp [List.getElem?_range hi]

/-- The draws for the seeds `0, ..., m`, and those for the seeds `0, ..., m - 1` as
their first `m`. -/
theorem draws_prefix {β : Type} (f : Int → Outcome β) (hf : ∀ s, ∃ r, f s = .ok r)
    (m : Nat) :
    ∃ rs : List β,
      ((List.range m).map (fun (k : Nat) => (k : Int)) ++ [(m : Int)]).map f =
        rs.map Except.ok ∧
      ((List.range m).map (fun (k : Nat) => (k : Int))).map f =
        (rs.take m).map Except.ok ∧
      ∀ i : Nat, i ≤ m → ∃ r, f (i : Int) = .ok r ∧ rs[i]? = some r := by
  obtain ⟨rs, hrs⟩ := map_ok_of_total f hf
    ((List.range m).map (fun (k : Nat) => (k : Int)) ++ [(m : Int)])
  refine ⟨rs, hrs, map_ok_take f (m : Int) m (by simp) hrs, ?_⟩
  intro i hi
  refine (getElem?_of_map_ok f hrs).2 i (i : Int) ?_
  rw [← seeds_succ]
  exact seeds_getElem? (m + 1) i (by omega)

/-- C13: in both modes the scenario at position `i` is the draw made from the base
sequence itself with seed `i`, whatever was drawn before (without replacement it is
a shuffle of the base sequence, not of the previous scenario), and for every `m` the
collection for `numScenarios = m` is the first `m` scenarios of the collection for
`numScenarios = m + 1` (with replacement: on a base sequence of a length from 1 up to
the largest `int`). The draws of the library's uniform distribution are assumed to lie
in the requested range. -/
theorem C13_sampling_stateless (L : RandomLib) (hL : L.InRange)
    (txns : List DailyTransaction) (m : Nat) :
    (∃ cm cm1, withoutReplacementScenarios L txns (m : Int) = .ok cm ∧
      withoutReplacementScenarios L txns ((m : Int) + 1) = .ok cm1 ∧
      cm = cm1.take m ∧
      ∀ i : Nat, i ≤ m → ∃ sc, shuffledCopy L txns (i : Int) = .ok sc ∧
        cm1[i]? = some sc ∧ sc.Perm txns) ∧
    (1 ≤ txns.length → txns.length < 2 ^ 31 →
      ∃ cm cm1, withReplacementScenarios L txns (m : Int) = .ok cm ∧
        withReplacementScenarios L txns ((m : Int) + 1) = .ok cm1 ∧
        cm = cm1.take m ∧
        ∀ i : Nat, i ≤ m → ∃ sc, withReplacementDraw L txns (i : Int) = .ok sc ∧
          cm1[i]? = some sc) := by
  constructor
  · have tot : ∀ s, ∃ r, shuffledCopy L txns s = .ok r := fun s =>
      (shuffle_perm L hL txns (L.mt19937_64 s)).imp fun _ h => h.1
    obtain ⟨rs, h1, h0, hi⟩ := draws_prefix (shuffledCopy L txns) tot m
    refine ⟨rs.take m, rs, ?_, ?_, rfl, ?_⟩
    · rw [withoutReplacementScenarios, makeSeeds_natCast]
      simpa using withoutReplacementLoop_spec L txns _ [] _ h0
    · rw [withoutReplacementScenarios, makeSeeds_succ]
      simpa using withoutReplacementLoop_spec L txns _ [] _ h1
    · intro i him
      obtain ⟨sc, hsc, hget⟩ := hi i him
      obtain ⟨r, hr, hp⟩ := shuffle_perm L hL txns (L.mt19937_64 (i : Int))
      have e : r = sc := Except.ok.inj (hr.symm.trans hsc)
      exact ⟨sc, hsc, hget, e ▸ hp⟩
  · intro hn hint
    obtain ⟨rs, h1, h0, hi⟩ := draws_prefix (withReplacementDraw L txns)
      (withReplacementDraw_total L hL txns (toInt32_pos txns.length hn hint)) m
    refine ⟨rs.take m, rs, ?_, ?_, rfl, hi⟩
    · rw [withReplacementScenarios, makeSeeds_natCast]
      simpa using withReplacementLoop_spec L txns _ [] _ h0
    · rw [withReplacementScenarios, makeSeeds_succ]
      simpa using withReplacementLoop_spec L txns _ [] _ h1

/-- The statement of C13 at the engine `lcg`, two transactions and `m = 2`. -/
theorem C13_sampling_stateless_witness :
    lcg.InRange ∧
    (∃ cm cm1,
      withoutReplacementScenarios lcg [⟨100, 110⟩, ⟨110, 99⟩] ((2 : Nat) : Int) = .ok cm ∧
      withoutReplacementScenarios lcg [⟨100, 110⟩, ⟨110, 99⟩] (((2 : Nat) : Int) + 1) =
        .ok cm1 ∧
      cm = cm1.take 2 ∧
      ∀ i : Nat, i ≤ 2 → ∃ sc, shuffledCopy lcg [⟨100, 110⟩, ⟨110, 99⟩] (i : Int) = .ok sc ∧
        cm1[i]? = some sc ∧ sc.Perm [⟨100, 110⟩, ⟨110, 99⟩]) ∧
    (∃ cm cm1,
      withReplacementScenarios lcg [⟨100, 110⟩, ⟨110, 99⟩] ((2 : Nat) : Int) = .ok cm ∧
      withReplacementScenarios lcg [⟨100, 110⟩, ⟨110, 99⟩] (((2 : Nat) : Int) + 1) =
        .ok cm1 ∧
      cm = cm1.take 2 ∧
      ∀ i : Nat, i ≤ 2 →
        ∃ sc, withReplacementDraw lcg [⟨100, 110⟩, ⟨110, 99⟩] (i : Int) = .ok sc ∧
          cm1[i]? = some sc) :=
  have h := C13_sampling_stateless lcg lcg_inRange [⟨100, 110⟩, ⟨110, 99⟩] 2
  ⟨lcg_inRange, h.1, h.2 (by decide) (by decide)⟩

/-! ## C14: the report of checkResults -/

theorem scenarioTransactionReturns_loop_eq (fmt : Option ℚ → String) :
    ∀ (tv : List DailyTransaction) (cout : List String),
      scenarioTransactionReturns.loop fmt tv cout =
        cout ++ (tv.map (fun txn => [fmt txn.operatorCall, "\t"])).flatten
  | [], cout => by simp [scenarioTransactionReturns.loop]
  | txn :: rest, cout => by
      rw [scenarioTransactionReturns.loop, scenarioTransactionReturns_loop_eq fmt rest]
      simp

theorem checkResults_loop_eq (fmt : Option ℚ → String) :
    ∀ (scenarios : List (List DailyTransaction)) (cout : List String),
      checkResults.loop fmt scenarios cout =
        cout ++ (scenarios.map (fun scenario =>
          (scenario.map (fun txn => [fmt txn.operatorCall, "\t"])).flatten ++ ["\n"])).flatten
  | [], cout => by simp [checkResults.loop]
  | scenario :: rest, cout => by
      rw [checkResults.loop, checkResults_loop_eq fmt rest, scenarioTransactionReturns,
        scenarioTransactionReturns_loop_eq]
      simp

theorem vectorAt_zero_cons {α : Type} (x : α) (rest : List α) :
    vectorAt (x :: rest) 0 = .ok x := by
  simp [vectorAt, elemAt]

theorem vectorAt_zero_nil {α : Type} : vectorAt ([] : List α) 0 = .error .out_of_range := rfl

theorem checkResults_cons (fmt : Option ℚ → String) (first : List DailyTransaction)
    (rest : List (List DailyTransaction)) (replacement : Bool) (cout : List String) :
    checkResults fmt (first :: rest) replacement cout =
      .ok (cout ++
        ["***** Check results of generated scenarios *****", "\n",
          "Scenarios generated ",
          (if replacement then "with replacement." else "without replacement."), "\n",
          "Number of scenarios generated: ", toString (first :: rest).length, "\n",
          "Number of transactions in each scenario: ", toString first.length, "\n",
          "Matrix of daily transaction returns: ", "\n"] ++
        ((first :: rest).map (fun scenario =>
          (scenario.map (fun txn => [fmt txn.operatorCall, "\t"])).flatten ++
            ["\n"])).flatten ++
        ["\n\n"]) := by
  simp only [checkResults, vectorAt_zero_cons, checkResults_loop_eq]
  simp

theorem checkResults_nil (fmt : Option ℚ → String) (replacement : Bool)
    (cout : List String) : checkResults fmt [] replacement cout = .error .out_of_range := rfl

/-- C14: for every non-empty scenario collection and either mode flag, `checkResults`
completes, and what it writes is: the banner; the mode label of the flag
("with replacement." when it is true, "without replacement." when it is false); the
size of the collection; the length of the first scenario; the heading of the matrix;
then one row for each scenario in the order of the collection, made of the return
of each of its transactions in order, each followed by a tab, and closed by a line
break; and two line breaks at the end. -/
theorem C14_report_of_collection (fmt : Option ℚ → String)
    (scenarios : List (List DailyTransaction)) (replacement : Bool) (cout : List String)
    (hne : scenarios ≠ []) :
    checkResults fmt scenarios replacement cout =
      .ok (cout ++
        ["***** Check results of generated scenarios *****", "\n",
          "Scenarios generated ",
          (if replacement then "with replacement." else "without replacement."), "\n",
          "Number of scenarios generated: ", toString scenarios.length, "\n",
          "Number of transactions in each scenario: ",
          toString (scenarios.head hne).length, "\n",
          "Matrix of daily transaction returns: ", "\n"] ++
        (scenarios.map (fun scenario =>
          (scenario.map (fun txn => [fmt txn.operatorCall, "\t"])).flatten ++
            ["\n"])).flatten ++
        ["\n\n"]) ∧
    (if true then "with replacement." else "without replacement.") = "with replacement." ∧
    (if false then "with replacement." else "without replacement.") =
      "without replacement." := by
  refine ⟨?_, rfl, rfl⟩
  cases scenarios with
  | nil => exact absurd rfl hne
  | cons first rest => exact checkResults_cons fmt first rest replacement cout

/-- The statement of C14 at two scenarios of two transactions, with replacement. -/
theorem C14_report_of_collection_witness :
    ([[⟨100, 110⟩, ⟨110, 99⟩], [⟨110, 99⟩, ⟨110, 99⟩]] : List (List DailyTransaction)) ≠ [] ∧
    ∃ hne : ([[⟨100, 110⟩, ⟨110, 99⟩], [⟨110, 99⟩, ⟨110, 99⟩]] :
        List (List DailyTransaction)) ≠ [],
      checkResults plainFormat [[⟨100, 110⟩, ⟨110, 99⟩], [⟨110, 99⟩, ⟨110, 99⟩]] true [] =
        .ok ([] ++
          ["***** Check results of generated scenarios *****", "\n",
            "Scenarios generated ",
            (if true then "with replacement." else "without replacement."), "\n",
            "Number of scenarios generated: ",
            toString ([[⟨100, 110⟩, ⟨110, 99⟩], [⟨110, 99⟩, ⟨110, 99⟩]] :
              List (List DailyTransaction)).length, "\n",
            "Number of transactions in each scenario: ",
            toString (([[⟨100, 110⟩, ⟨110, 99⟩], [⟨110, 99⟩, ⟨110, 99⟩]] :
              List (List DailyTransaction)).head hne).length, "\n",
            "Matrix of daily transaction returns: ", "\n"] ++
          (([[⟨100, 110⟩, ⟨110, 99⟩], [⟨110, 99⟩, ⟨110, 99⟩]] :
              List (List DailyTransaction)).map (fun scenario =>
            (scenario.map (fun txn => [plainFormat txn.operatorCall, "\t"])).flatten ++
              ["\n"])).flatten ++
          ["\n\n"]) ∧
      (if true then "with replacement." else "without replacement.") =
        "with replacement." ∧
      (if false then "with replacement." else "without replacement.") =
        "without replacement." :=
  ⟨by simp, by simp,
    C14_report_of_collection plainFormat [[⟨100, 110⟩, ⟨110, 99⟩], [⟨110, 99⟩, ⟨110, 99⟩]]
      true [] (by simp)⟩

/-! ## Lemmas on the collections -/

theorem mem_of_map_ok {β : Type} (f : Int → Outcome β) {seeds : List Int} {rs : List β}
    (h : seeds.map f = rs.map Except.ok) (r : β) (hr : r ∈ rs) :
    ∃ s ∈ seeds, f s = .ok r := by
  have h1 : (Except.ok r : Outcome β) ∈ rs.map Except.ok := List.mem_map_of_mem _ hr
  rw [← h] at h1
  obtain ⟨s, hs, hfs⟩ := List.mem_map.mp h1
  exact ⟨s, hs, hfs⟩

theorem withoutReplacementScenarios_ok (L : RandomLib) (hL : L.InRange)
    (txns : List DailyTransaction) (numScenarios : Int) (h : 0 ≤ numScenarios) :
    ∃ rs, withoutReplacementScenarios L txns numScenarios = .ok rs ∧
      (rs.length : Int) = numScenarios ∧
      ∀ sc ∈ rs, ∃ s, shuffledCopy L txns s = .ok sc := by
  have tot : ∀ s, ∃ r, shuffledCopy L txns s = .ok r := fun s =>
    (shuffle_perm L hL txns (L.mt19937_64 s)).imp fun _ h => h.1
  obtain ⟨rs, hm⟩ := map_ok_of_total _ tot
    ((List.range numScenarios.toNat).map (fun (k : Nat) => (k : Int)))
  have hlen := (getElem?_of_map_ok _ hm).1
  simp only [List.length_map, List.length_range] at hlen
  refine ⟨rs, ?_, by omega, fun sc hsc => ?_⟩
  · rw [withoutReplacementScenarios, makeSeeds_spec numScenarios h]
    simpa using withoutReplacementLoop_spec L txns _ [] rs hm
  · obtain ⟨s, -, hs⟩ := mem_of_map_ok _ hm sc hsc
    exact ⟨s, hs⟩

theorem withReplacementScenarios_ok (L : RandomLib) (hL : L.InRange)
    (txns : List DailyTransaction) (hm : 1 ≤ toInt32 txns.length) (numScenarios : Int)
    (h : 0 ≤ numScenarios) :
    ∃ rs, withReplacementScenarios L txns numScenarios = .ok rs ∧
      (rs.length : Int) = numScenarios ∧
      ∀ sc ∈ rs, ∃ s, withReplacementDraw L txns s = .ok sc := by
  obtain ⟨rs, hmap⟩ := map_ok_of_total _ (withReplacementDraw_total L hL txns hm)
    ((List.range numScenarios.toNat).map (fun (k : Nat) => (k : Int)))
  have hlen := (getElem?_of_map_ok _ hmap).1
  simp only [List.length_map, List.length_range] at hlen
  refine ⟨rs, ?_, by omega, fun sc hsc => ?_⟩
  · rw [withReplacementScenarios, makeSeeds_spec numScenarios h]
    simpa using withReplacementLoop_spec L txns _ [] rs hmap
  · obtain ⟨s, -, hs⟩ := mem_of_map_ok _ hmap sc hsc
    exact ⟨s, hs⟩

theorem makeSeeds_neg (numScenarios : Int) (h : numScenarios < 0) :
    makeSeeds numScenarios = .error .length_error := by
  simp [makeSeeds, h]

/-! ## C15: the empty scenario collection -/

/-- C15: once the base sequence is there, each of `withoutReplacementTests` and
`withReplacementTests` ends in an out-of-range error if and only if `numScenarios` is
zero (the first at `scenarios.at(0)` in its own body, the second at the one in
`checkResults`); for every `numScenarios ≥ 1` the collection is not empty and each
function ends with the report that `checkResults` writes for its collection (with
replacement: on a base sequence of a length from 1 up to the largest `int`). The draws
of the library's uniform distribution are assumed to lie in the requested range. -/
theorem C15_out_of_range_iff_no_scenarios (L : RandomLib) (hL : L.InRange)
    (epg : ℚ → Int → ℚ → ℚ → ℚ → Int → List ℚ) (fmt : Option ℚ → String) (days : Int)
    (mktPrice drift volatility : ℚ) (seed numScenarios : Int) (cout : List String)
    (txns : List DailyTransaction)
    (hbase : generateSimulatedPath epg days mktPrice drift volatility seed = .ok txns) :
    (withoutReplacementTests L epg fmt days mktPrice drift volatility seed numScenarios cout =
        .error .out_of_range ↔ numScenarios = 0) ∧
    (withReplacementTests L epg fmt days mktPrice drift volatility seed numScenarios cout =
        .error .out_of_range ↔ numScenarios = 0) ∧
    (1 ≤ numScenarios →
      (∃ scenarios report, withoutReplacementScenarios L txns numScenarios = .ok scenarios ∧
        scenarios ≠ [] ∧ checkResults fmt scenarios false cout = .ok report ∧
        withoutReplacementTests L epg fmt days mktPrice drift volatility seed numScenarios
          cout = .ok report) ∧
      (1 ≤ txns.length → txns.length < 2 ^ 31 →
        ∃ scenarios report, withReplacementScenarios L txns numScenarios = .ok scenarios ∧
          scenarios ≠ [] ∧ checkResults fmt scenarios true cout = .ok report ∧
          withReplacementTests L epg fmt days mktPrice drift volatility seed numScenarios
            cout = .ok report)) := by
  rcases lt_trichotomy numScenarios 0 with hneg | hzero | hpos
  · have hs := makeSeeds_neg numScenarios hneg
    have h1 : withoutReplacementTests L epg fmt days mktPrice drift volatility seed
        numScenarios cout = .error .length_error := by
      simp only [withoutReplacementTests, hbase, withoutReplacementScenarios, hs]
    have h2 : withReplacementTests L epg fmt days mktPrice drift volatility seed
        numScenarios cout = .error .length_error := by
      simp only [withReplacementTests, hbase, withReplacementScenarios, hs]
    rw [h1, h2]
    refine ⟨⟨fun h => (by cases h), fun h => (by omega)⟩,
      ⟨fun h => (by cases h), fun h => (by omega)⟩, fun h => (by omega)⟩
  · subst hzero
    have hs : makeSeeds 0 = .ok [] := rfl
    have h1 : withoutReplacementTests L epg fmt days mktPrice drift volatility seed
        0 cout = .error .out_of_range := by
      simp only [withoutReplacementTests, hbase, withoutReplacementScenarios, hs,
        withoutReplacementLoop, vectorAt_zero_nil]
    have h2 : withReplacementTests L epg fmt days mktPrice drift volatility seed
        0 cout = .error .out_of_range := by
      simp only [withReplacementTests, hbase, withReplacementScenarios, hs,
        withReplacementLoop, checkResults_nil]
    rw [h1, h2]
    exact ⟨⟨fun _ => rfl, fun _ => rfl⟩, ⟨fun _ => rfl, fun _ => rfl⟩, fun h => (by omega)⟩
  · obtain ⟨rs1, hrs1, hlen1, -⟩ :=
      withoutReplacementScenarios_ok L hL txns numScenarios (by omega)
    obtain ⟨f1, r1, rfl⟩ : ∃ f1 r1, rs1 = f1 :: r1 := by
      cases rs1 with
      | nil => simp at hlen1; omega
      | cons a b => exact ⟨a, b, rfl⟩
    have h1 : withoutReplacementTests L epg fmt days mktPrice drift volatility seed
        numScenarios cout = checkResults fmt (f1 :: r1) false cout := by
      simp only [withoutReplacementTests, hbase, hrs1, vectorAt_zero_cons]
    have c1 := checkResults_cons fmt f1 r1 false cout
    have hwith : (withReplacementTests L epg fmt days mktPrice drift volatility seed
          numScenarios cout ≠ .error .out_of_range) ∧
        (1 ≤ txns.length → txns.length < 2 ^ 31 →
          ∃ scenarios report, withReplacementScenarios L txns numScenarios = .ok scenarios ∧
            scenarios ≠ [] ∧ checkResults fmt scenarios true cout = .ok report ∧
            withReplacementTests L epg fmt days mktPrice drift volatility seed numScenarios
              cout = .ok report) := by
      by_cases hm : 1 ≤ toInt32 txns.length
      · obtain ⟨rs2, hrs2, hlen2, -⟩ :=
          withReplacementScenarios_ok L hL txns hm numScenarios (by omega)
        obtain ⟨f2, r2, rfl⟩ : ∃ f2 r2, rs2 = f2 :: r2 := by
          cases rs2 with
          | nil => simp at hlen2; omega
          | cons a b => exact ⟨a, b, rfl⟩
        have h2 : withReplacementTests L epg fmt days mktPrice drift volatility seed
            numScenarios cout = checkResults fmt (f2 :: r2) true cout := by
          simp only [withReplacementTests, hbase, hrs2]
        have c2 := checkResults_cons fmt f2 r2 true cout
        refine ⟨fun h => ?_, fun _ _ =>
          ⟨f2 :: r2, _, hrs2, List.cons_ne_nil _ _, c2, h2.trans c2⟩⟩
        rw [h2, c2] at h
        cases h
      · have hu := withReplacementScenarios_undefined L txns (by omega) numScenarios
          (by omega)
        have h2 : withReplacementTests L epg fmt days mktPrice drift volatility seed
            numScenarios cout = .error .undefined_behaviour := by
          simp only [withReplacementTests, hbase, hu]
        refine ⟨fun h => ?_, fun hn hint => absurd (toInt32_pos txns.length hn hint) hm⟩
        rw [h2] at h
        cases h
    refine ⟨⟨fun h => ?_, fun h => (by omega)⟩,
      ⟨fun h => absurd h hwith.1, fun h => (by omega)⟩, fun _ => ⟨?_, hwith.2⟩⟩
    · rw [h1, c1] at h
      cases h
    · exact ⟨f1 :: r1, _, hrs1, List.cons_ne_nil _ _, c1, h1.trans c1⟩

/-- The statement of C15 at the engine `lcg`, three rising prices and no scenario. -/
theorem C15_out_of_range_iff_no_scenarios_witness :
    lcg.InRange ∧
    generateSimulatedPath risingPrices 2 100 0 0 1 = .ok [⟨100, 101⟩, ⟨101, 102⟩] ∧
    (withoutReplacementTests lcg risingPrices plainFormat 2 100 0 0 1 0 [] =
        .error .out_of_range ↔ (0 : Int) = 0) ∧
    (withReplacementTests lcg risingPrices plainFormat 2 100 0 0 1 0 [] =
        .error .out_of_range ↔ (0 : Int) = 0) ∧
    ((1 : Int) ≤ 0 →
      (∃ scenarios report,
        withoutReplacementScenarios lcg [⟨100, 101⟩, ⟨101, 102⟩] 0 = .ok scenarios ∧
        scenarios ≠ [] ∧ checkResults plainFormat scenarios false [] = .ok report ∧
        withoutReplacementTests lcg risingPrices plainFormat 2 100 0 0 1 0 [] =
          .ok report) ∧
      (1 ≤ [(⟨100, 101⟩ : DailyTransaction), ⟨101, 102⟩].length →
        [(⟨100, 101⟩ : DailyTransaction), ⟨101, 102⟩].length < 2 ^ 31 →
        ∃ scenarios report,
          withReplacementScenarios lcg [⟨100, 101⟩, ⟨101, 102⟩] 0 = .ok scenarios ∧
          scenarios ≠ [] ∧ checkResults plainFormat scenarios true [] = .ok report ∧
          withReplacementTests lcg risingPrices plainFormat 2 100 0 0 1 0 [] =
            .ok report)) :=
  have hbase : generateSimulatedPath risingPrices 2 100 0 0 1 =
      .ok [⟨100, 101⟩, ⟨101, 102⟩] := by
    have e : (2 : Int).toNat = 2 := rfl
    simp only [generateSimulatedPath, risingPrices, e, List.range_succ, List.range_zero,
      List.nil_append, List.map_append, List.map_cons, List.map_nil, List.cons_append,
      extractTransactions, generateSimulatedPath.loop]
    norm_num
  ⟨lcg_inRange, hbase,
    C15_out_of_range_iff_no_scenarios lcg lcg_inRange risingPrices plainFormat 2 100 0 0 1 0
      [] [⟨100, 101⟩, ⟨101, 102⟩] hbase⟩

/-! ## C12: the shape of the collections from end to end -/

theorem withReplacementDraw_shape (L : RandomLib) (hL : L.InRange)
    (txns : List DailyTransaction) (seed : Int) (hn : 1 ≤ txns.length)
    (hint : txns.length < 2 ^ 31) :
    ∃ sc, withReplacementDraw L txns seed = .ok sc ∧ sc.length = txns.length ∧
      ∀ t ∈ sc, ∃ idx : Nat, idx < txns.length ∧ txns[idx]? = some t := by
  have hcast := toInt32_of_lt txns.length hint
  obtain ⟨ds, hidx, h2, h3⟩ := generateRandIndices_ok L hL txns seed (by rw [hcast]; omega)
  rw [hcast] at h2 h3
  rw [Int.toNat_ofNat] at h2
  obtain ⟨picked, h4, h5⟩ := generateScenario_loop_spec txns ds [] (by
    intro idx hi
    have := h3 idx hi
    omega)
  have hlen : picked.length = ds.length := by
    have := congrArg List.length h5
    simpa using this.symm
  refine ⟨picked, ?_, by omega, ?_⟩
  · rw [withReplacementDraw_of_indices L txns seed ds hidx]
    simpa [generateScenario] using h4
  intro t ht
  have h6 : some t ∈ picked.map some := List.mem_map_of_mem _ ht
  rw [← h5] at h6
  obtain ⟨d, -, hd⟩ := List.mem_map.mp h6
  obtain ⟨-, h7⟩ := elemAt_eq_some hd
  exact ⟨d.toNat, (List.getElem?_eq_some.mp h7).1, h7⟩

/-- C12: when the price generator returns `days + 1` prices, with `days ≥ 1` (an `int`)
and `numScenarios ≥ 1`, the base path has `days` transactions; the collection without
replacement has `numScenarios` scenarios, each of length `days` and a permutation of
the base transactions; the collection with replacement has `numScenarios` scenarios,
each of length `days` with every transaction found at a base index in `[0, days - 1]`;
and the two test functions report these collections. The call of `main` is the case
`days = 7`, `numScenarios = 15`. The draws of the library's uniform distribution are
assumed to lie in the requested range. -/
theorem C12_end_to_end_shape (L : RandomLib) (hL : L.InRange)
    (epg : ℚ → Int → ℚ → ℚ → ℚ → Int → List ℚ) (fmt : Option ℚ → String) (days : Int)
    (mktPrice drift volatility : ℚ) (seed numScenarios : Int) (cout : List String)
    (hprices : ((epg mktPrice days 1 drift volatility seed).length : Int) = days + 1)
    (hdays : 1 ≤ days) (hint : days < 2 ^ 31) (hnum : 1 ≤ numScenarios) :
    ∃ txns, generateSimulatedPath epg days mktPrice drift volatility seed = .ok txns ∧
      (txns.length : Int) = days ∧
      (∃ scenarios, withoutReplacementScenarios L txns numScenarios = .ok scenarios ∧
        (scenarios.length : Int) = numScenarios ∧
        (∀ sc ∈ scenarios, (sc.length : Int) = days ∧ sc.Perm txns) ∧
        withoutReplacementTests L epg fmt days mktPrice drift volatility seed numScenarios
          cout = checkResults fmt scenarios false cout) ∧
      (∃ scenarios, withReplacementScenarios L txns numScenarios = .ok scenarios ∧
        (scenarios.length : Int) = numScenarios ∧
        (∀ sc ∈ scenarios, (sc.length : Int) = days ∧
          ∀ t ∈ sc, ∃ idx : Nat, (idx : Int) ≤ days - 1 ∧ txns[idx]? = some t) ∧
        withReplacementTests L epg fmt days mktPrice drift volatility seed numScenarios
          cout = checkResults fmt scenarios true cout) := by
  have hne : epg mktPrice days 1 drift volatility seed ≠ [] := by
    intro h
    rw [h] at hprices
    simp at hprices
    omega
  have hbase : generateSimulatedPath epg days mktPrice drift volatility seed =
      .ok (adjacentPairs (epg mktPrice days 1 drift volatility seed)) :=
    extractTransactions_eq _ hne
  have hlen := adjacentPairs_length (epg mktPrice days 1 drift volatility seed)
  generalize adjacentPairs (epg mktPrice days 1 drift volatility seed) = txns at hbase hlen
  have hlen' : (txns.length : Int) = days := by omega
  have hlt : txns.length < 2 ^ 31 := by
    have : (txns.length : Int) < 2 ^ 31 := by omega
    exact_mod_cast this
  obtain ⟨rs1, hrs1, hl1, hm1⟩ := withoutReplacementScenarios_ok L hL txns numScenarios
    (by omega)
  obtain ⟨rs2, hrs2, hl2, hm2⟩ := withReplacementScenarios_ok L hL txns
    (toInt32_pos txns.length (by omega) hlt) numScenarios (by omega)
  refine ⟨txns, hbase, hlen', ⟨rs1, hrs1, hl1, ?_, ?_⟩, ⟨rs2, hrs2, hl2, ?_, ?_⟩⟩
  · intro sc hsc
    obtain ⟨s, hs⟩ := hm1 sc hsc
    obtain ⟨r, hr, hp⟩ := shuffle_perm L hL txns (L.mt19937_64 s)
    have e : r = sc := Except.ok.inj (hr.symm.trans hs)
    subst e
    exact ⟨by rw [hp.length_eq]; exact hlen', hp⟩
  · cases rs1 with
    | nil => simp at hl1; omega
    | cons f1 r1 => simp only [withoutReplacementTests, hbase, hrs1, vectorAt_zero_cons]
  · intro sc hsc
    obtain ⟨s, hs⟩ := hm2 sc hsc
    obtain ⟨r, hr, hrl, hrm⟩ := withReplacementDraw_shape L hL txns s (by omega) hlt
    have e : r = sc := Except.ok.inj (hr.symm.trans hs)
    subst e
    refine ⟨by omega, fun t ht => ?_⟩
    obtain ⟨idx, hi, hget⟩ := hrm t ht
    exact ⟨idx, by omega, hget⟩
  · simp only [withReplacementTests, hbase, hrs2]

/-- The statement of C12 at the call of `main`: `days = 7` and `numScenarios = 15`, with
the engine `lcg` and eight rising prices. -/
theorem C12_end_to_end_shape_witness :
    lcg.InRange ∧
    ((risingPrices 100 7 1 (15 / 100) (25 / 100) 106).length : Int) = 7 + 1 ∧
    (1 : Int) ≤ 7 ∧ (7 : Int) < 2 ^ 31 ∧ (1 : Int) ≤ 15 ∧
    ∃ txns,
      generateSimulatedPath risingPrices 7 100 (15 / 100) (25 / 100) 106 = .ok txns ∧
      (txns.length : Int) = 7 ∧
      (∃ scenarios, withoutReplacementScenarios lcg txns 15 = .ok scenarios ∧
        (scenarios.length : Int) = 15 ∧
        (∀ sc ∈ scenarios, (sc.length : Int) = 7 ∧ sc.Perm txns) ∧
        withoutReplacementTests lcg risingPrices plainFormat 7 100 (15 / 100) (25 / 100)
          106 15 [] = checkResults plainFormat scenarios false []) ∧
      (∃ scenarios, withReplacementScenarios lcg txns 15 = .ok scenarios ∧
        (scenarios.length : Int) = 15 ∧
        (∀ sc ∈ scenarios, (sc.length : Int) = 7 ∧
          ∀ t ∈ sc, ∃ idx : Nat, (idx : Int) ≤ 7 - 1 ∧ txns[idx]? = some t) ∧
        withReplacementTests lcg risingPrices plainFormat 7 100 (15 / 100) (25 / 100)
          106 15 [] = checkResults plainFormat scenarios true []) :=
  ⟨lcg_inRange, by simp [risingPrices], by decide, by decide, by decide,
    C12_end_to_end_shape lcg lcg_inRange risingPrices plainFormat 7 100 (15 / 100)
      (25 / 100) 106 15 [] (by simp [risingPrices]) (by decide) (by decide) (by decide)⟩

/-! ## C16: a permutation keeps the compounded growth -/

theorem compoundedGrowth_eq :
    ∀ l : List DailyTransaction, (∀ t ∈ l, t.startPrice_ ≠ 0) →
      compoundedGrowth l = some ((l.map (fun t => t.endPrice_ / t.startPrice_)).prod)
  | [], _ => rfl
  | t :: rest, h => by
      have ht : t.startPrice_ ≠ 0 := h t (by simp)
      have ih := compoundedGrowth_eq rest (fun u hu => h u (List.mem_cons_of_mem _ hu))
      have e : 1 + (t.endPrice_ - t.startPrice_) / t.startPrice_ =
          t.endPrice_ / t.startPrice_ := by
        field_simp
      simp only [compoundedGrowth, DailyTransaction.operatorCall, quotient, if_neg ht, ih,
        List.map_cons, List.prod_cons, e]

theorem adjacentPairs_startPrice_mem :
    ∀ (p : List ℚ) (t : DailyTransaction), t ∈ adjacentPairs p → t.startPrice_ ∈ p
  | [], t, h => by simp [adjacentPairs] at h
  | [_], t, h => by simp [adjacentPairs] at h
  | a :: b :: rest, t, h => by
      simp only [adjacentPairs, List.mem_cons] at h
      rcases h with rfl | h
      · simp
      · exact List.mem_cons_of_mem _ (adjacentPairs_startPrice_mem (b :: rest) t h)

/-- The growth factors of adjacent prices multiply to the last price over the first. -/
theorem adjacentPairs_prod :
    ∀ (a : ℚ) (rest : List ℚ), (∀ x ∈ a :: rest, x ≠ 0) →
      ((adjacentPairs (a :: rest)).map (fun t => t.endPrice_ / t.startPrice_)).prod =
        (a :: rest).getLast (List.cons_ne_nil a rest) / a
  | a, [], h => by
      have ha : a ≠ 0 := h a (by simp)
      simp [adjacentPairs, ha]
  | a, b :: rest, h => by
      have ha : a ≠ 0 := h a (by simp)
      have hb : b ≠ 0 := h b (by simp)
      have ih := adjacentPairs_prod b rest (fun x hx => h x (List.mem_cons_of_mem _ hx))
      simp only [adjacentPairs, List.map_cons, List.prod_cons, ih,
        List.getLast_cons (List.cons_ne_nil b rest)]
      field_simp
      ring

/-- C16: for every price sequence `p` of length `k ≥ 2` with positive prices and every
seed, the product of `1 + return` over the transactions of the without-replacement
scenario built from the extracted base path is `p[k - 1] / p[0]`, as it is for the base
path itself. The draws of the library's uniform distribution are assumed to lie in the
requested range. -/
theorem C16_compounded_growth_preserved (L : RandomLib) (hL : L.InRange) (p : List ℚ)
    (seed : Int) (hk : 2 ≤ p.length) (hpos : ∀ x ∈ p, 0 < x) :
    ∃ base scenario first last, extractTransactions p = .ok base ∧
      shuffledCopy L base seed = .ok scenario ∧
      p[0]? = some first ∧ p[p.length - 1]? = some last ∧
      compoundedGrowth scenario = some (last / first) ∧
      compoundedGrowth base = some (last / first) := by
  obtain ⟨a, rest, rfl⟩ : ∃ a rest, p = a :: rest := by
    cases p with
    | nil => simp at hk
    | cons a rest => exact ⟨a, rest, rfl⟩
  have hnz : ∀ x ∈ a :: rest, x ≠ 0 := fun x hx => ne_of_gt (hpos x hx)
  have hbase := extractTransactions_eq (a :: rest) (List.cons_ne_nil a rest)
  obtain ⟨sc, hsc, hperm⟩ := shuffle_perm L hL (adjacentPairs (a :: rest))
    (L.mt19937_64 seed)
  have hstart : ∀ t ∈ adjacentPairs (a :: rest), t.startPrice_ ≠ 0 := fun t ht =>
    hnz _ (adjacentPairs_startPrice_mem _ t ht)
  have hstart' : ∀ t ∈ sc, t.startPrice_ ≠ 0 := fun t ht => hstart t (hperm.subset ht)
  have hprod := adjacentPairs_prod a rest hnz
  refine ⟨adjacentPairs (a :: rest), sc, a, (a :: rest).getLast (List.cons_ne_nil a rest),
    hbase, hsc, by simp, ?_, ?_, ?_⟩
  · rw [← List.getLast?_eq_getElem?, List.getLast?_eq_getLast _ (List.cons_ne_nil a rest)]
  · rw [compoundedGrowth_eq sc hstart',
      (hperm.map (fun t => t.endPrice_ / t.startPrice_)).prod_eq, hprod]
  · rw [compoundedGrowth_eq _ hstart, hprod]

/-- The statement of C16 at the engine `lcg`, the prices 100, 110, 99, 121 and seed 3. -/
theorem C16_compounded_growth_preserved_witness :
    lcg.InRange ∧ 2 ≤ [(100 : ℚ), 110, 99, 121].length ∧
    (∀ x ∈ [(100 : ℚ), 110, 99, 121], 0 < x) ∧
    ∃ base scenario first last, extractTransactions [100, 110, 99, 121] = .ok base ∧
      shuffledCopy lcg base 3 = .ok scenario ∧
      [(100 : ℚ), 110, 99, 121][0]? = some first ∧
      [(100 : ℚ), 110, 99, 121][[(100 : ℚ), 110, 99, 121].length - 1]? = some last ∧
      compoundedGrowth scenario = some (last / first) ∧
      compoundedGrowth base = some (last / first) :=
  ⟨lcg_inRange, by decide, by norm_num,
    C16_compounded_growth_preserved lcg lcg_inRange [100, 110, 99, 121] 3 (by decide)
      (by norm_num)⟩

end TxnSim
